import Mathlib

/-!
# Verification of the Dartmouth BASIC interpreter/compiler (Go)

Shallow embedding of the repository's core: the runtime value model and
environments (`evaluator/evaluator.go` and the runtime prelude emitted by
`compiler.Compile`), the tree-walking interpreter's dispatch loop, the
semantics of the program text emitted by the compiler backend, and the
lexer/parser front end.

Go's `float64` is modelled by `GoNum`: finite values are rationals and a
distinguished `nan` covers the one NaN-producing operation the code performs
(`math.Mod` with zero divisor).  Infinities and rounding of `/` are not
modelled; no claim depends on them.  Go maps are modelled as association
lists with first-match lookup and in-place update.
-/

namespace BasicGo

/- The core rational operations are `@[irreducible]` in the library, which
stops `decide` from evaluating concrete runs; they are proof-irrelevantly
unsealed for this development. -/
attribute [local semireducible] Rat.add Rat.sub Rat.mul Rat.inv

/-- Numeric carrier for runtime numbers (Go `float64`): finite doubles as
rationals plus NaN. -/
inductive GoNum where
  | finite (q : ℚ)
  | nan
deriving DecidableEq

namespace GoNum

/-- Go `+` on float64 (NaN propagates). -/
def add : GoNum → GoNum → GoNum
  | finite a, finite b => finite (a + b)
  | _, _ => nan

/-- Go `-` on float64. -/
def sub : GoNum → GoNum → GoNum
  | finite a, finite b => finite (a - b)
  | _, _ => nan

/-- Go `*` on float64. -/
def mul : GoNum → GoNum → GoNum
  | finite a, finite b => finite (a * b)
  | _, _ => nan

/-- Go `<` on float64: any comparison involving NaN is false. -/
def lt : GoNum → GoNum → Bool
  | finite a, finite b => a < b
  | _, _ => false

/-- Go `>` on float64. -/
def gt : GoNum → GoNum → Bool
  | finite a, finite b => a > b
  | _, _ => false

/-- Go `<=` on float64. -/
def le : GoNum → GoNum → Bool
  | finite a, finite b => a ≤ b
  | _, _ => false

/-- Go `>=` on float64. -/
def ge : GoNum → GoNum → Bool
  | finite a, finite b => a ≥ b
  | _, _ => false

/-- Go `==` on float64: false whenever either side is NaN. -/
def beq : GoNum → GoNum → Bool
  | finite a, finite b => a = b
  | _, _ => false

/-- Go `!=` on float64: true whenever either side is NaN. -/
def bne : GoNum → GoNum → Bool
  | finite a, finite b => a ≠ b
  | _, _ => true

/-- The `v == 0` test Go performs before division: NaN is not zero. -/
def isZero : GoNum → Bool
  | finite a => a = 0
  | nan => false

/-- Go float64 division.  Only reached by the code after an `== 0` check on
the divisor, so the `b = 0` branch is unreachable there; it is given the
value `nan` to make the function total. -/
def divF : GoNum → GoNum → GoNum
  | finite a, finite b => if b = 0 then nan else finite (a / b)
  | _, _ => nan

/-- Truncation toward zero of a rational, as Go's float-to-int conversion
and `math.Trunc` do. -/
def ratTrunc (q : ℚ) : ℤ := if q < 0 then -⌊(-q : ℚ)⌋ else ⌊q⌋

/-- `math.Mod(x, y)`: floating-point remainder, `x - Trunc(x/y)*y`, with NaN
for a NaN operand or a zero divisor. -/
def goMod : GoNum → GoNum → GoNum
  | finite a, finite b =>
      if b = 0 then nan else finite (a - (ratTrunc (a / b) : ℚ) * b)
  | _, _ => nan

/-- Go `int(x)` conversion of a float64.  For NaN the Go spec leaves the
result implementation-defined; the amd64 behaviour (`-2^63`) is used.  Both
backends use this same conversion, so their comparison never depends on the
NaN case. -/
def truncInt : GoNum → ℤ
  | finite q => ratTrunc q
  | nan => -(2 ^ 63)

/-- Unary float64 negation. -/
def neg : GoNum → GoNum
  | finite a => finite (-a)
  | nan => nan

/-- Decimal digits of the fractional part `0 ≤ q < 1`, at most `fuel` of
them (float64 fractions always terminate well inside 17 digits). -/
def fracDigits : ℕ → ℚ → String
  | 0, _ => ""
  | fuel + 1, q =>
      if q = 0 then ""
      else
        let q10 := q * 10
        let d : ℤ := ⌊q10⌋
        toString d ++ fracDigits fuel (q10 - (d : ℚ))

/-- Decimal rendering of a non-negative rational: integer part, and a
fractional part only when nonzero. -/
def formatNonneg (q : ℚ) : String :=
  let ip : ℤ := ⌊q⌋
  let fr := q - (ip : ℚ)
  if fr = 0 then toString ip else toString ip ++ "." ++ fracDigits 17 fr

/-- Models Go's `%g` formatting of a float64 (used by `Inspect`/`inspect` in
both backends): integers print with no decimal point, other finite values
with a decimal expansion, NaN prints as "NaN".  The exponent forms `%g`
chooses for very large/small magnitudes are not modelled; both backends
share this one definition, so their comparison does not depend on it. -/
def format : GoNum → String
  | nan => "NaN"
  | finite q => if q < 0 then "-" ++ formatNonneg (-q) else formatNonneg q

end GoNum

/-- Runtime scalar value.  `evaluator.go` has `NumberValue`/`StringValue`
(its `ArrayValue` lives only in the separate array table, never in the
scalar table or an expression result); the compiled runtime's
`Value{kind, num, str}` struct carries the same information, with `kind`
as the tag. -/
inductive Value where
  | num (n : GoNum)
  | str (s : String)
deriving DecidableEq

/-- `NumberValue.Inspect` / `StringValue.Inspect` (and the compiled
runtime's `Value.inspect`): `%g` for numbers, the raw text for strings. -/
def Value.inspect : Value → String
  | .num n => GoNum.format n
  | .str s => s

/-- The interpreter's `isTruthy`: a Number is truthy iff `!= 0` (so NaN is
truthy, matching Go's float `!=`), a String iff non-empty; the default
branch for other value kinds is unreachable for scalar values. -/
def isTruthy : Value → Bool
  | .num n => GoNum.bne n (GoNum.finite 0)
  | .str s => s ≠ ""

/-- The compiled runtime's `truthy` helper (same logic as `isTruthy`). -/
def truthy : Value → Bool
  | .num n => GoNum.bne n (GoNum.finite 0)
  | .str s => s ≠ ""

/-- First-match lookup in an association list (Go map read). -/
def lookupA {κ α : Type} [DecidableEq κ] : List (κ × α) → κ → Option α
  | [], _ => none
  | (k, v) :: rest, key => if k = key then some v else lookupA rest key

/-- Update-or-append in an association list (Go map write). -/
def setA {κ α : Type} [DecidableEq κ] : List (κ × α) → κ → α → List (κ × α)
  | [], key, val => [(key, val)]
  | (k, v) :: rest, key, val =>
      if k = key then (key, val) :: rest else (k, v) :: setA rest key val

/-- Key removal from an association list (Go `delete`). -/
def delA {κ α : Type} [DecidableEq κ] : List (κ × α) → κ → List (κ × α)
  | [], _ => []
  | (k, v) :: rest, key => if k = key then rest else (k, v) :: delA rest key

/-- Insertion into a sorted list of ints. -/
def insertSorted (x : ℤ) : List ℤ → List ℤ
  | [] => [x]
  | y :: rest => if x ≤ y then x :: y :: rest else y :: insertSorted x rest

/-- `sort.Ints`: ascending sort (line-number keys are distinct, so any
stable/unstable sort agrees). -/
def sortInts : List ℤ → List ℤ
  | [] => []
  | x :: rest => insertSorted x (sortInts rest)

/-- `ast.go` expressions.  `numberLit` carries the float64 `Value` of a
`NumberLiteral`; `infixE`/`prefixE` are `InfixExpression`/`PrefixExpression`
with their operator literal; `arrayAcc` is `ArrayAccess`.  `nilE` stands for
a nil `Expression` pointer, which the parser leaves behind on error paths
and the evaluator's default branch rejects at run time. -/
inductive Expr where
  | numberLit (v : GoNum)
  | stringLit (s : String)
  | ident (name : String)
  | infixE (op : String) (left right : Expr)
  | prefixE (op : String) (right : Expr)
  | arrayAcc (name : String) (index : Expr)
  | nilE
deriving DecidableEq

/-- `ast.go` statements.  `forS` carries variable/Start/End/Step (`stop` is
the `End` field, renamed because `end` is reserved); `seqS` is
`SequenceStatement`; `nilS` stands for a typed-nil statement pointer from a
failed sub-parser (rejected by the evaluator's default branch).  The unused
`ForStatement.Body`/`LineStart` fields and the token fields are omitted:
no code reads them. -/
inductive Stmt where
  | print (exprs : List Expr) (separators : List String) (trailingNewline : Bool)
  | letS (name : String) (value : Expr)
  | ifS (cond : Expr) (consequence : Stmt) (alternative : Option Stmt)
  | goto (lineNumber : Expr)
  | gosub (lineNumber : Expr)
  | returnS
  | forS (var : String) (start stop step : Expr)
  | next (var : Option String)
  | inputS (prompt : String) (targets : List String)
  | endS
  | rem (comment : String)
  | dim (name : String) (size : Expr)
  | exprS (e : Expr)
  | seqS (stmts : List Stmt)
  | nilS

/-- `evaluator.go ForLoopState` (the unused `NextLine` field is omitted). -/
structure ForLoopState where
  var : String
  stop : GoNum
  step : GoNum
  startLine : ℤ
deriving DecidableEq

/-- The compiled runtime's `forLoopState{End, Step, StartPC}`. -/
structure CForLoopState where
  stop : GoNum
  step : GoNum
  startPC : ℤ
deriving DecidableEq

/-- Dynamic execution state, common shape for both backends (parameterised
by the FOR-loop record, which differs between them).  `vars`/`arrays` model
the environment maps, `inputLines` the pending stdin lines, `output` the
bytes written to stdout so far, `pc` the program counter
(`Evaluator.currentLine` / the compiled `pc`), `callStack` the GOSUB stack
of saved pc indices, `forLoops` the open-loop table, `halted` the END flag.
Go map iteration order (used by a variable-less NEXT) is unspecified; the
model keeps insertion order and picks the first entry, identically in both
backends. -/
structure St (L : Type) where
  vars : List (String × Value)
  arrays : List (String × List (ℤ × Value))
  inputLines : List String
  output : String
  callStack : List ℤ
  forLoops : List (String × L)
  pc : ℤ
  halted : Bool
deriving DecidableEq

/-- Result of executing one statement: the error case keeps the state so
that output already printed before the failure stays observable. -/
inductive ExecRes (L : Type) where
  | ok (st : St L)
  | err (st : St L) (msg : String)
deriving DecidableEq

/-- Result of a (fuelled) run loop. -/
inductive RunRes (L : Type) where
  | ok (st : St L)
  | err (st : St L) (msg : String)
  | fuelOut (st : St L)
deriving DecidableEq

/-- Fresh state at the start of a run. -/
def initState (L : Type) (input : List String) : St L :=
  { vars := [], arrays := [], inputLines := input, output := "",
    callStack := [], forLoops := [], pc := 0, halted := false }

/-- Whitespace for `strings.TrimSpace`. -/
def isSpaceChar (c : Char) : Bool :=
  c = ' ' ∨ c = '\t' ∨ c = '\n' ∨ c = '\r' ∨ c = '\x0b' ∨ c = '\x0c'

/-- `strings.TrimSpace`. -/
def goTrimSpace (s : String) : String :=
  ⟨((s.data.dropWhile isSpaceChar).reverse.dropWhile isSpaceChar).reverse⟩

/-- `strings.Split(s, ",")`: yields at least one field. -/
def splitCommaChars : List Char → List String
  | [] => [""]
  | c :: rest =>
      let r := splitCommaChars rest
      if c = ',' then "" :: r
      else
        match r with
        | [] => [⟨[c]⟩]
        | f :: fs => (⟨c :: f.data⟩ : String) :: fs

/-- `strings.Split` on a comma, on `String`. -/
def goSplitComma (s : String) : List String := splitCommaChars s.data

/-- Digit test on `Char` (ASCII). -/
def isDigitChar (c : Char) : Bool := '0' ≤ c ∧ c ≤ '9'

/-- Numeric value of a digit list (most significant first). -/
def digitsToNat : List Char → ℕ
  | [] => 0
  | c :: rest => (c.toNat - '0'.toNat) * 10 ^ rest.length + digitsToNat rest

/-- Modelled from the spec and Go's `strconv.ParseFloat` (a library
function, not repository code): an optional sign, then decimal digits with
at most one decimal point and at least one digit.  Exponent, hex and
Inf/NaN spellings are not modelled.  Both backends call the same library
function on the same text, so their comparison does not depend on this
modelling. -/
def goParseFloat (s : String) : Option GoNum :=
  let withSign := s.data
  let (negSign, rest) :=
    match withSign with
    | '-' :: r => (true, r)
    | '+' :: r => (false, r)
    | r => (false, r)
  let ip := rest.takeWhile isDigitChar
  let tail := rest.drop ip.length
  let parts : Option (List Char × List Char) :=
    match tail with
    | [] => if ip.isEmpty then none else some (ip, [])
    | '.' :: fp =>
        if fp.all isDigitChar ∧ ¬(ip.isEmpty ∧ fp.isEmpty) then some (ip, fp) else none
    | _ => none
  match parts with
  | none => none
  | some (ipart, fpart) =>
      let mag : ℚ := (digitsToNat ipart : ℚ) + (digitsToNat fpart : ℚ) / (10 ^ fpart.length : ℚ)
      some (GoNum.finite (if negSign then -mag else mag))

/-- Modelled from Go's `strconv.Atoi` (library function): optional sign then
one or more digits, rejecting anything else.  Int is unbounded here; the
int64 overflow failure of Atoi is not modelled (no claim involves line
numbers near 2^63). -/
def goAtoi (s : String) : Option ℤ :=
  let rest := if s.data.headD '\x00' = '-' ∨ s.data.headD '\x00' = '+' then s.data.tail
    else s.data
  if rest.isEmpty ∨ ¬(rest.all isDigitChar) then none
  else some (if s.data.headD '\x00' = '-' then -(digitsToNat rest : ℤ)
    else (digitsToNat rest : ℤ))

/-- `strings.HasSuffix s " "`. -/
def endsWithSpace (s : String) : Bool := s.data.reverse.headD 'x' = ' '

/-- `Value.Type()` tag used in the interpreter's "unsupported operation"
message (`ARRAY` cannot occur as an operand). -/
def typeName : Value → String
  | .num _ => "NUMBER"
  | .str _ => "STRING"

/-- The Number 1/0 results of comparisons and logical operators. -/
def boolNum (b : Bool) : Value := .num (GoNum.finite (if b then 1 else 0))

/-- `Evaluator.evalInfixExpression`, the operator dispatch applied after
both operands have been evaluated (the operand evaluation is factored out
into `evalExpression`).  When both operands are Numbers an unknown operator
falls through the switch to the final "unsupported operation" error, as in
the Go `switch` without a `default`. -/
def evalInfixOp (op : String) (left right : Value) : Except String Value :=
  match left, right with
  | .num l, .num r =>
      if op = "+" then .ok (.num (GoNum.add l r))
      else if op = "-" then .ok (.num (GoNum.sub l r))
      else if op = "*" then .ok (.num (GoNum.mul l r))
      else if op = "/" then
        if GoNum.isZero r then .error "division by zero"
        else .ok (.num (GoNum.divF l r))
      else if op = "MOD" then .ok (.num (GoNum.goMod l r))
      else if op = "<" then .ok (boolNum (GoNum.lt l r))
      else if op = ">" then .ok (boolNum (GoNum.gt l r))
      else if op = "<=" then .ok (boolNum (GoNum.le l r))
      else if op = ">=" then .ok (boolNum (GoNum.ge l r))
      else if op = "==" then .ok (boolNum (GoNum.beq l r))
      else if op = "<>" then .ok (boolNum (GoNum.bne l r))
      else if op = "AND" then .ok (boolNum (isTruthy left && isTruthy right))
      else if op = "OR" then .ok (boolNum (isTruthy left || isTruthy right))
      else .error ("unsupported operation: " ++ typeName left ++ " " ++ op ++ " " ++ typeName right)
  | .str l, .str r =>
      if op = "+" then .ok (.str (l ++ r))
      else if op = "==" then .ok (boolNum (l = r))
      else if op = "<>" then .ok (boolNum (l ≠ r))
      else .error ("unsupported operation: " ++ typeName left ++ " " ++ op ++ " " ++ typeName right)
  | _, _ =>
      .error ("unsupported operation: " ++ typeName left ++ " " ++ op ++ " " ++ typeName right)

/-- `Evaluator.evalPrefixExpression` after the operand has been evaluated. -/
def evalPrefixOp (op : String) (right : Value) : Except String Value :=
  if op = "-" then
    match right with
    | .num n => .ok (.num (GoNum.neg n))
    | _ => .error "cannot negate non-number"
  else if op = "NOT" then .ok (boolNum (!isTruthy right))
  else .error ("unknown operator: " ++ op)

/-- `Evaluator.evalExpression` (with `evalArrayAccess` inlined at the
`ArrayAccess` case): unset scalars read as Number 0, an undeclared array
name is an error, the index is evaluated only after the array lookup
succeeds, and an unset index reads as Number 0. -/
def evalExpression (vars : List (String × Value))
    (arrays : List (String × List (ℤ × Value))) : Expr → Except String Value
  | .numberLit v => .ok (.num v)
  | .stringLit s => .ok (.str s)
  | .ident name =>
      match lookupA vars name with
      | none => .ok (.num (GoNum.finite 0))
      | some v => .ok v
  | .infixE op l r =>
      match evalExpression vars arrays l with
      | .error m => .error m
      | .ok lv =>
          match evalExpression vars arrays r with
          | .error m => .error m
          | .ok rv => evalInfixOp op lv rv
  | .prefixE op r =>
      match evalExpression vars arrays r with
      | .error m => .error m
      | .ok rv => evalPrefixOp op rv
  | .arrayAcc name idx =>
      match lookupA arrays name with
      | none => .error ("array " ++ name ++ " not defined")
      | some arr =>
          match evalExpression vars arrays idx with
          | .error m => .error m
          | .ok (.num n) =>
              match lookupA arr (GoNum.truncInt n) with
              | none => .ok (.num (GoNum.finite 0))
              | some v => .ok v
          | .ok _ => .error "array index must be a number"
  | .nilE => .error "unknown expression type"

/-- The interpreter's PRINT loop: evaluate each expression left to right,
appending its text and then the declared separator (when one exists for
that position) to the output; an evaluation error aborts with the output
printed so far retained. -/
def printLoop (eval : Expr → Except String Value) :
    List Expr → List String → String → String × Option String
  | [], _, out => (out, none)
  | e :: es, seps, out =>
      match eval e with
      | .error msg => (out, some msg)
      | .ok v =>
          let out' := out ++ v.inspect
          match seps with
          | [] => printLoop eval es [] out'
          | s :: ss => printLoop eval es ss (out' ++ s)

/-- The INPUT target-assignment loop, shared verbatim by both backends:
trim each comma field, try a numeric parse, fall back to the raw string;
targets beyond the supplied fields get Number 0. -/
def inputAssign : List (String × Value) → List String → List String → List (String × Value)
  | env, [], _ => env
  | env, v :: vs, [] => inputAssign (setA env v (.num (GoNum.finite 0))) vs []
  | env, v :: vs, w :: ws =>
      let t := goTrimSpace w
      let value :=
        match goParseFloat t with
        | some n => Value.num n
        | none => Value.str t
      inputAssign (setA env v value) vs ws

/-- The interpreter's linear search of `e.lines` for a GOTO/GOSUB target,
returning its index. -/
def findLineIdxFrom (i : ℤ) : List ℤ → ℤ → Option ℤ
  | [], _ => none
  | l :: rest, target =>
      if l = target then some i else findLineIdxFrom (i + 1) rest target

/-- Index of a target in the sorted line list (interpreter GOTO/GOSUB). -/
def findLineIdx (lines : List ℤ) (target : ℤ) : Option ℤ :=
  findLineIdxFrom 0 lines target

/-- State type of the interpreter backend. -/
abbrev IState := St ForLoopState

/-- `Evaluator.evalNextStatement`.  A variable-less NEXT picks "some" open
loop (Go map iteration; modelled as the first entry, identically in the
compiled backend). -/
def ievalNext (v : Option String) (st : IState) : ExecRes ForLoopState :=
  let varName :=
    match v with
    | some n => n
    | none =>
        match st.forLoops with
        | [] => ""
        | (n, _) :: _ => n
  if varName = "" then .err st "NEXT without FOR"
  else
    match lookupA st.forLoops varName with
    | none => .err st "NEXT without matching FOR"
    | some ls =>
        match lookupA st.vars varName with
        | none => .err st ("loop variable " ++ varName ++ " not found")
        | some val =>
            match val with
            | .num c =>
                let newVal := GoNum.add c ls.step
                let shouldContinue :=
                  if GoNum.gt ls.step (GoNum.finite 0) then GoNum.le newVal ls.stop
                  else GoNum.ge newVal ls.stop
                if shouldContinue then
                  .ok { st with vars := setA st.vars varName (.num newVal), pc := ls.startLine }
                else .ok { st with forLoops := delA st.forLoops varName }
            | _ => .err st "loop variable must be a number"

mutual

/-- `Evaluator.evalStatement` and the per-variant handlers, over the dynamic
state (the sorted line list is passed in; the program map itself is only
consulted by the run loop). -/
def ievalStmt (lines : List ℤ) : Stmt → IState → ExecRes ForLoopState
  | .print exprs seps tnl, st =>
      if exprs.isEmpty then .ok { st with output := st.output ++ "\n" }
      else
        match printLoop (evalExpression st.vars st.arrays) exprs seps st.output with
        | (out, some msg) => .err { st with output := out } msg
        | (out, none) => .ok { st with output := if tnl then out ++ "\n" else out }
  | .letS name value, st =>
      match evalExpression st.vars st.arrays value with
      | .error msg => .err st msg
      | .ok v => .ok { st with vars := setA st.vars name v }
  | .ifS cond cons alt, st =>
      match evalExpression st.vars st.arrays cond with
      | .error msg => .err st msg
      | .ok c =>
          if isTruthy c then ievalStmt lines cons st
          else
            match alt with
            | some a => ievalStmt lines a st
            | none => .ok st
  | .goto lineExpr, st =>
      match evalExpression st.vars st.arrays lineExpr with
      | .error msg => .err st msg
      | .ok (.num n) =>
          let target := GoNum.truncInt n
          match findLineIdx lines target with
          | some i => .ok { st with pc := i - 1 }
          | none => .err st ("line " ++ toString target ++ " not found")
      | .ok _ => .err st "GOTO requires a number"
  | .gosub lineExpr, st =>
      match evalExpression st.vars st.arrays lineExpr with
      | .error msg => .err st msg
      | .ok (.num n) =>
          let st1 := { st with callStack := st.callStack ++ [st.pc] }
          let target := GoNum.truncInt n
          match findLineIdx lines target with
          | some i => .ok { st1 with pc := i - 1 }
          | none => .err st1 ("line " ++ toString target ++ " not found")
      | .ok _ => .err st "GOSUB requires a number"
  | .returnS, st =>
      match st.callStack.getLast? with
      | none => .err st "RETURN without GOSUB"
      | some top => .ok { st with pc := top, callStack := st.callStack.dropLast }
  | .forS v startE stopE stepE, st =>
      match evalExpression st.vars st.arrays startE with
      | .error m => .err st m
      | .ok (.num startN) =>
          match evalExpression st.vars st.arrays stopE with
          | .error m => .err st m
          | .ok (.num stopN) =>
              match evalExpression st.vars st.arrays stepE with
              | .error m => .err st m
              | .ok (.num stepN) =>
                  .ok { st with
                        vars := setA st.vars v (.num startN),
                        forLoops := setA st.forLoops v ⟨v, stopN, stepN, st.pc⟩ }
              | .ok _ => .err st "FOR step value must be a number"
          | .ok _ => .err st "FOR end value must be a number"
      | .ok _ => .err st "FOR start value must be a number"
  | .next v, st => ievalNext v st
  | .inputS prompt targets, st =>
      let out1 :=
        if prompt ≠ "" then
          st.output ++ prompt ++ (if endsWithSpace prompt then "" else " ")
        else st.output
      match st.inputLines with
      | [] => .err { st with output := out1 } "EOF"
      | line :: rest =>
          let values := goSplitComma (goTrimSpace line)
          let vars' := inputAssign st.vars targets values
          .ok { st with output := out1, inputLines := rest, vars := vars' }
  | .endS, st => .ok { st with halted := true }
  | .rem _, st => .ok st
  | .dim name size, st =>
      match evalExpression st.vars st.arrays size with
      | .error m => .err st m
      | .ok (.num _) => .ok { st with arrays := setA st.arrays name [] }
      | .ok _ => .err st "DIM size must be a number"
  | .exprS e, st =>
      match evalExpression st.vars st.arrays e with
      | .error msg => .err st msg
      | .ok _ => .ok st
  | .seqS stmts, st => ievalStmtList lines stmts st
  | .nilS, st => .err st "unknown statement type"

/-- The SequenceStatement loop: run each inner statement, stopping at the
first error. -/
def ievalStmtList (lines : List ℤ) : List Stmt → IState → ExecRes ForLoopState
  | [], st => .ok st
  | s :: rest, st =>
      match ievalStmt lines s st with
      | .err st' m => .err st' m
      | .ok st' => ievalStmtList lines rest st'

end

/-- Element of an int list at an int index (Go slice indexing; negative or
out-of-range indices would panic in Go and are unreachable under the run
loop's guard). -/
def intGet (lines : List ℤ) (i : ℤ) : Option ℤ :=
  if 0 ≤ i then lines.get? i.toNat else none

/-- `Evaluator.Run`'s loop, fuelled: while the pc is in range and END has
not fired, fetch the statement of the current line, execute it, wrap any
failure with the originating line number, else advance the pc. -/
def irunLoop (prog : List (ℤ × Stmt)) (lines : List ℤ) :
    ℕ → IState → RunRes ForLoopState
  | 0, st => .fuelOut st
  | fuel + 1, st =>
      if st.pc < (lines.length : ℤ) ∧ st.halted = false then
        match intGet lines st.pc with
        | none => .err st "panic: index out of range"
        | some lineNum =>
            match lookupA prog lineNum with
            | none => .err st ("error at line " ++ toString lineNum ++ ": unknown statement type")
            | some stmt =>
                match ievalStmt lines stmt st with
                | .err st' msg =>
                    .err st' ("error at line " ++ toString lineNum ++ ": " ++ msg)
                | .ok st' => irunLoop prog lines fuel { st' with pc := st'.pc + 1 }
      else .ok st

/-- The sorted list of declared line numbers (`New` collects the map keys
and `sort.Ints`s them; `Compile` does the same). -/
def programLines (prog : List (ℤ × Stmt)) : List ℤ := sortInts (prog.map Prod.fst)

/-- `evaluator.New` + `Evaluator.Run`: a full interpreter run from a fresh
state over a given input stream. -/
def irun (prog : List (ℤ × Stmt)) (input : List String) (fuel : ℕ) : RunRes ForLoopState :=
  irunLoop prog (programLines prog) fuel (initState ForLoopState input)

/-!
## Semantics of the program text emitted by `compiler.Compile`

`Compile` (src/unnamed/part_000) emits, for a given AST, a standalone Go
program: the fixed `runtimeHelpers` prelude, the `programLines` slice and
`lineIndex` map, and a `pc` dispatch loop with one `case` per declared line
whose body is generated statement-by-statement by `emitStatement`.  The
definitions below give the meaning of that emitted text directly: each
`ceval*` definition is the translation of the corresponding `emit*`
template combined with the prelude helpers it calls.  Temporaries
(`tmpN`) disappear: the emitted code evaluates each sub-expression into a
fresh temporary in left-to-right order, which is exactly the evaluation
order used here. -/

/-- The emitted runtime's `env.get`: unset scalars read as Number 0. -/
def getOrZero (vars : List (String × Value)) (name : String) : Value :=
  match lookupA vars name with
  | some v => v
  | none => .num (GoNum.finite 0)

/-- The emitted runtime's `env.ensureArray`: creates an empty array only
when the name is not already bound (an existing array is kept). -/
def ensureArray (arrays : List (String × List (ℤ × Value))) (name : String) :
    List (String × List (ℤ × Value)) :=
  match lookupA arrays name with
  | some _ => arrays
  | none => setA arrays name []

/-- The emitted runtime's `applyPrefix` (same logic as the interpreter's
prefix dispatch). -/
def applyPrefixOp (op : String) (right : Value) : Except String Value :=
  if op = "-" then
    match right with
    | .num n => .ok (.num (GoNum.neg n))
    | _ => .error "cannot negate non-number"
  else if op = "NOT" then .ok (boolNum (!truthy right))
  else .error ("unknown operator: " ++ op)

/-- The emitted runtime's `applyInfix`.  Identical to the interpreter's
dispatch except that its "unsupported operation" message interpolates
`inspect` of the operands where the interpreter prints their type tags. -/
def applyInfixOp (op : String) (left right : Value) : Except String Value :=
  match left, right with
  | .num l, .num r =>
      if op = "+" then .ok (.num (GoNum.add l r))
      else if op = "-" then .ok (.num (GoNum.sub l r))
      else if op = "*" then .ok (.num (GoNum.mul l r))
      else if op = "/" then
        if GoNum.isZero r then .error "division by zero"
        else .ok (.num (GoNum.divF l r))
      else if op = "MOD" then .ok (.num (GoNum.goMod l r))
      else if op = "<" then .ok (boolNum (GoNum.lt l r))
      else if op = ">" then .ok (boolNum (GoNum.gt l r))
      else if op = "<=" then .ok (boolNum (GoNum.le l r))
      else if op = ">=" then .ok (boolNum (GoNum.ge l r))
      else if op = "==" then .ok (boolNum (GoNum.beq l r))
      else if op = "<>" then .ok (boolNum (GoNum.bne l r))
      else if op = "AND" then .ok (boolNum (truthy left && truthy right))
      else if op = "OR" then .ok (boolNum (truthy left || truthy right))
      else .error ("unsupported operation: " ++ left.inspect ++ " " ++ op ++ " " ++ right.inspect)
  | .str l, .str r =>
      if op = "+" then .ok (.str (l ++ r))
      else if op = "==" then .ok (boolNum (l = r))
      else if op = "<>" then .ok (boolNum (l ≠ r))
      else .error ("unsupported operation: " ++ left.inspect ++ " " ++ op ++ " " ++ right.inspect)
  | _, _ =>
      .error ("unsupported operation: " ++ left.inspect ++ " " ++ op ++ " " ++ right.inspect)

/-- The emitted runtime's `arrayAccess` helper: array lookup first, then
the (already evaluated) index is checked to be a Number. -/
def arrayAccess (arrays : List (String × List (ℤ × Value))) (name : String)
    (index : Value) : Except String Value :=
  match lookupA arrays name with
  | none => .error ("array " ++ name ++ " not defined")
  | some arr =>
      match index with
      | .num n =>
          match lookupA arr (GoNum.truncInt n) with
          | none => .ok (.num (GoNum.finite 0))
          | some v => .ok v
      | _ => .error "array index must be a number"

/-- `emitExpression`: the emitted code evaluates sub-expressions into
temporaries left to right and calls the prelude helpers.  Note that for
`ArrayAccess` the index is evaluated *before* `arrayAccess` checks that
the array exists (the interpreter checks existence first).  A `nilE`
node has no generation rule: `Compile` rejects such programs, so the
marker error below is unreachable for compiled programs. -/
def cEvalExpr (vars : List (String × Value))
    (arrays : List (String × List (ℤ × Value))) : Expr → Except String Value
  | .numberLit v => .ok (.num v)
  | .stringLit s => .ok (.str s)
  | .ident name => .ok (getOrZero vars name)
  | .infixE op l r =>
      match cEvalExpr vars arrays l with
      | .error m => .error m
      | .ok lv =>
          match cEvalExpr vars arrays r with
          | .error m => .error m
          | .ok rv => applyInfixOp op lv rv
  | .prefixE op r =>
      match cEvalExpr vars arrays r with
      | .error m => .error m
      | .ok rv => applyPrefixOp op rv
  | .arrayAcc name idx =>
      match cEvalExpr vars arrays idx with
      | .error m => .error m
      | .ok iv => arrayAccess arrays name iv
  | .nilE => .error "compiler: unsupported expression"

/-- State type of the compiled backend. -/
abbrev CState := St CForLoopState

/-- The `lineIndex` literal the compiler emits: each declared line mapped to
its index in the sorted `programLines`. -/
def buildLineIndexFrom (i : ℤ) : List ℤ → List (ℤ × ℤ)
  | [] => []
  | l :: rest => (l, i) :: buildLineIndexFrom (i + 1) rest

/-- `lineIndex` as an association list. -/
def buildLineIndex (lines : List ℤ) : List (ℤ × ℤ) := buildLineIndexFrom 0 lines

/-- `emitNext`: like the interpreter's NEXT except the loop variable is read
with `env.get` (defaulting to Number 0) — there is no "loop variable not
found" branch in the emitted code. -/
def cevalNext (v : Option String) (st : CState) : ExecRes CForLoopState :=
  let loopName :=
    match v with
    | some n => n
    | none =>
        match st.forLoops with
        | [] => ""
        | (n, _) :: _ => n
  if loopName = "" then .err st "NEXT without FOR"
  else
    match lookupA st.forLoops loopName with
    | none => .err st "NEXT without matching FOR"
    | some ls =>
        match getOrZero st.vars loopName with
        | .num c =>
            let newVal := GoNum.add c ls.step
            let shouldContinue :=
              if GoNum.gt ls.step (GoNum.finite 0) then GoNum.le newVal ls.stop
              else GoNum.ge newVal ls.stop
            if shouldContinue then
              .ok { st with vars := setA st.vars loopName (.num newVal), pc := ls.startPC }
            else .ok { st with forLoops := delA st.forLoops loopName }
        | _ => .err st "loop variable must be a number"

mutual

/-- `emitStatement` and the per-variant `emit*` templates: what one emitted
`case` body does to the run-time state of the compiled program. -/
def cevalStmt (lines : List ℤ) : Stmt → CState → ExecRes CForLoopState
  | .print exprs seps tnl, st =>
      if exprs.isEmpty then .ok { st with output := st.output ++ "\n" }
      else
        match printLoop (cEvalExpr st.vars st.arrays) exprs seps st.output with
        | (out, some msg) => .err { st with output := out } msg
        | (out, none) => .ok { st with output := if tnl then out ++ "\n" else out }
  | .letS name value, st =>
      match cEvalExpr st.vars st.arrays value with
      | .error msg => .err st msg
      | .ok v => .ok { st with vars := setA st.vars name v }
  | .ifS cond cons alt, st =>
      match cEvalExpr st.vars st.arrays cond with
      | .error msg => .err st msg
      | .ok c =>
          if truthy c then cevalStmt lines cons st
          else
            match alt with
            | some a => cevalStmt lines a st
            | none => .ok st
  | .goto lineExpr, st =>
      match cEvalExpr st.vars st.arrays lineExpr with
      | .error msg => .err st msg
      | .ok (.num n) =>
          let target := GoNum.truncInt n
          match lookupA (buildLineIndex lines) target with
          | some i => .ok { st with pc := i - 1 }
          | none => .err st ("line " ++ toString target ++ " not found")
      | .ok _ => .err st "GOTO requires a number"
  | .gosub lineExpr, st =>
      match cEvalExpr st.vars st.arrays lineExpr with
      | .error msg => .err st msg
      | .ok (.num n) =>
          let target := GoNum.truncInt n
          match lookupA (buildLineIndex lines) target with
          | some i => .ok { st with callStack := st.callStack ++ [st.pc], pc := i - 1 }
          | none => .err st ("line " ++ toString target ++ " not found")
      | .ok _ => .err st "GOSUB requires a number"
  | .returnS, st =>
      match st.callStack.getLast? with
      | none => .err st "RETURN without GOSUB"
      | some top => .ok { st with pc := top, callStack := st.callStack.dropLast }
  | .forS v startE stopE stepE, st =>
      match cEvalExpr st.vars st.arrays startE with
      | .error m => .err st m
      | .ok sv =>
          match cEvalExpr st.vars st.arrays stopE with
          | .error m => .err st m
          | .ok ev =>
              match cEvalExpr st.vars st.arrays stepE with
              | .error m => .err st m
              | .ok pv =>
                  match sv with
                  | .num startN =>
                      match ev with
                      | .num stopN =>
                          match pv with
                          | .num stepN =>
                              .ok { st with
                                    vars := setA st.vars v (.num startN),
                                    forLoops := setA st.forLoops v ⟨stopN, stepN, st.pc⟩ }
                          | _ => .err st "FOR step value must be a number"
                      | _ => .err st "FOR end value must be a number"
                  | _ => .err st "FOR start value must be a number"
  | .next v, st => cevalNext v st
  | .inputS prompt targets, st =>
      let out1 :=
        if prompt ≠ "" then
          st.output ++ prompt ++ (if endsWithSpace prompt then "" else " ")
        else st.output
      match st.inputLines with
      | [] => .err { st with output := out1 } "EOF"
      | line :: rest =>
          let values := goSplitComma (goTrimSpace line)
          let vars' := inputAssign st.vars targets values
          .ok { st with output := out1, inputLines := rest, vars := vars' }
  | .endS, st => .ok { st with halted := true }
  | .rem _, st => .ok st
  | .dim name _, st => .ok { st with arrays := ensureArray st.arrays name }
  | .exprS e, st =>
      match cEvalExpr st.vars st.arrays e with
      | .error msg => .err st msg
      | .ok _ => .ok st
  | .seqS stmts, st => cevalStmtList lines stmts st
  | .nilS, st => .err st "compiler: unsupported statement"

/-- Sequence of emitted statement bodies (SequenceStatement). -/
def cevalStmtList (lines : List ℤ) : List Stmt → CState → ExecRes CForLoopState
  | [], st => .ok st
  | s :: rest, st =>
      match cevalStmt lines s st with
      | .err st' m => .err st' m
      | .ok st' => cevalStmtList lines rest st'

end

/-- The emitted `run()` dispatch loop: while `pc < len(programLines)` and
not halted, switch on `programLines[pc]` (a line declared in the program
hits its generated case; the `default` case reports "unknown line"),
execute the case body, then `pc++`.  A failing body returns its raw error
and `main` exits nonzero. -/
def crunLoop (prog : List (ℤ × Stmt)) (lines : List ℤ) :
    ℕ → CState → RunRes CForLoopState
  | 0, st => .fuelOut st
  | fuel + 1, st =>
      if st.pc < (lines.length : ℤ) ∧ st.halted = false then
        match intGet lines st.pc with
        | none => .err st "panic: index out of range"
        | some lineNum =>
            match lookupA prog lineNum with
            | none => .err st ("unknown line " ++ toString lineNum)
            | some stmt =>
                match cevalStmt lines stmt st with
                | .err st' msg => .err st' msg
                | .ok st' => crunLoop prog lines fuel { st' with pc := st'.pc + 1 }
      else .ok st

/-- A full run of the compiled program emitted for `prog`. -/
def crun (prog : List (ℤ × Stmt)) (input : List String) (fuel : ℕ) : RunRes CForLoopState :=
  crunLoop prog (programLines prog) fuel (initState CForLoopState input)

/-- No `nilE` under an expression (a nil expression pointer would make
`Compile` fail and can only arise from a program with parse errors). -/
def exprWF : Expr → Bool
  | .numberLit _ => true
  | .stringLit _ => true
  | .ident _ => true
  | .infixE _ l r => exprWF l && exprWF r
  | .prefixE _ r => exprWF r
  | .arrayAcc _ idx => exprWF idx
  | .nilE => false

mutual

/-- A statement free of nil AST pointers: what "valid Program" (one parsed
with no errors, accepted by `Compile`) guarantees. -/
def stmtWF : Stmt → Bool
  | .print exprs _ _ => exprs.all exprWF
  | .letS _ v => exprWF v
  | .ifS c cons alt =>
      exprWF c && stmtWF cons &&
        (match alt with | none => true | some a => stmtWF a)
  | .goto e => exprWF e
  | .gosub e => exprWF e
  | .returnS => true
  | .forS _ a b c => exprWF a && exprWF b && exprWF c
  | .next _ => true
  | .inputS _ _ => true
  | .endS => true
  | .rem _ => true
  | .dim _ size => exprWF size
  | .exprS e => exprWF e
  | .seqS stmts => stmtWFList stmts
  | .nilS => false

/-- All statements of a list are nil-free. -/
def stmtWFList : List Stmt → Bool
  | [] => true
  | s :: rest => stmtWF s && stmtWFList rest

end

mutual

/-- A statement containing no DIM (at any nesting depth). -/
def dimFree : Stmt → Bool
  | .ifS _ cons alt =>
      dimFree cons && (match alt with | none => true | some a => dimFree a)
  | .dim _ _ => false
  | .seqS stmts => dimFreeList stmts
  | _ => true

/-- All statements of a list are DIM-free. -/
def dimFreeList : List Stmt → Bool
  | [] => true
  | s :: rest => dimFree s && dimFreeList rest

end

/-- The success/failure outcome of a run, as observable at the process
level (clean exit vs. reported error; `outOfFuel` marks an execution the
fuel bound cut short). -/
inductive Outcome where
  | success
  | failure
  | outOfFuel
deriving DecidableEq

/-- Observable outcome of a run result. -/
def outcomeOf {L : Type} : RunRes L → Outcome
  | .ok _ => .success
  | .err _ _ => .failure
  | .fuelOut _ => .outOfFuel

/-- Bytes written to standard output by a run (also kept on failure). -/
def outputOf {L : Type} : RunRes L → String
  | .ok st => st.output
  | .err st _ => st.output
  | .fuelOut st => st.output

/-- The loop-variable invariant: every name with an entry in the loop-state
table has a value bound in the scalar environment.  FOR establishes it
(setting the variable before recording loop state) and no statement removes
a scalar binding. -/
def loopVarsBound (st : IState) : Prop :=
  ∀ p ∈ st.forLoops, (lookupA st.vars p.1).isSome = true

/-- States of the interpreter reachable at the top of `Run`'s loop: the
fresh state of any input stream, and every state obtained from a reachable
one by executing the statement at the current line successfully and
advancing the pc. -/
inductive ReachableI (prog : List (ℤ × Stmt)) (lines : List ℤ) : IState → Prop where
  | init (input : List String) : ReachableI prog lines (initState ForLoopState input)
  | step (st st' : IState) (lineNum : ℤ) (stmt : Stmt) :
      ReachableI prog lines st →
      st.pc < (lines.length : ℤ) → st.halted = false →
      intGet lines st.pc = some lineNum →
      lookupA prog lineNum = some stmt →
      ievalStmt lines stmt st = .ok st' →
      ReachableI prog lines { st' with pc := st'.pc + 1 }

/-! ## Concrete programs used as claim instances and witnesses -/

/-- `10 FOR I = 5 TO 1 STEP -1 / 20 PRINT I / 30 NEXT I` (the STEP
expression is a Prefix-minus on the literal 1, as parsed). -/
def forCountdownProg : List (ℤ × Stmt) :=
  [(10, .forS "I" (.numberLit (.finite 5)) (.numberLit (.finite 1))
          (.prefixE "-" (.numberLit (.finite 1)))),
   (20, .print [.ident "I"] [] true),
   (30, .next (some "I"))]

/-- `10 DIM A("x")`: a DIM whose size expression is not a Number. -/
def dimStrProg : List (ℤ × Stmt) := [(10, .dim "A" (.stringLit "x"))]

/-- `10 GOSUB 100 / 20 END / 100 PRINT "X" / 110 RETURN`. -/
def gosubProg : List (ℤ × Stmt) :=
  [(10, .gosub (.numberLit (.finite 100))),
   (20, .endS),
   (100, .print [.stringLit "X"] [] true),
   (110, .returnS)]

/-- The interpreter's `ForLoopState` carries the redundant `Variable` field;
forgetting it yields the compiled runtime's loop record (`End`, `Step`,
resume index). -/
def projLoop (l : ForLoopState) : CForLoopState := ⟨l.stop, l.step, l.startLine⟩

/-- The correspondence between the two backends' states: identical in every
dynamic component, with the loop table's payloads projected. -/
def projSt (st : IState) : CState :=
  { vars := st.vars, arrays := st.arrays, inputLines := st.inputLines,
    output := st.output, callStack := st.callStack,
    forLoops := st.forLoops.map (fun p => (p.1, projLoop p.2)),
    pc := st.pc, halted := st.halted }

/-- Agreement of two expression-evaluation results: same value, or errors on
both sides (the two backends word some error messages differently — type
tags vs. inspected values — so messages are not compared). -/
def agreeE (a b : Except String Value) : Prop :=
  (∃ v, a = .ok v ∧ b = .ok v) ∨ ((∃ m, a = .error m) ∧ (∃ m', b = .error m'))

/-- Agreement of two statement-execution results: success with corresponding
states, or failure on both sides with the same bytes on stdout. -/
def agreeR (a : ExecRes ForLoopState) (b : ExecRes CForLoopState) : Prop :=
  (∃ ist, a = .ok ist ∧ b = .ok (projSt ist)) ∨
  (∃ ist m cst m', a = .err ist m ∧ b = .err cst m' ∧ cst.output = ist.output)

/-- Agreement of two run results: same outcome kind, corresponding states on
the non-failure kinds, and the same bytes on stdout on failure. -/
def agreeRun (a : RunRes ForLoopState) (b : RunRes CForLoopState) : Prop :=
  (∃ ist, a = .ok ist ∧ b = .ok (projSt ist)) ∨
  (∃ ist m cst m', a = .err ist m ∧ b = .err cst m' ∧ cst.output = ist.output) ∨
  (∃ ist, a = .fuelOut ist ∧ b = .fuelOut (projSt ist))

/-! ## Lexer (src/unnamed/part_004, package lexer, and the token package) -/

/-- `token.Token`: `ttype` is the `TokenType` string constant (`"NUMBER"`,
`"IDENT"`, an operator spelling, a keyword, ...), `literal` the matched
text, `line` the 1-based source line. -/
structure Token where
  ttype : String
  literal : String
  line : ℕ
deriving DecidableEq

/-- The `token.keywords` table's keys.  Every keyword constant's value is
its own spelling, so `LookupIdent` maps a keyword to itself. -/
def keywordList : List String :=
  ["PRINT", "LET", "IF", "THEN", "ELSE", "GOTO", "GOSUB", "RETURN", "FOR", "TO",
   "STEP", "NEXT", "INPUT", "REM", "END", "DIM", "AND", "OR", "NOT", "MOD"]

/-- `token.LookupIdent`. -/
def lookupIdent (ident : String) : String :=
  if ident ∈ keywordList then ident else "IDENT"

/-- ASCII upper-casing (`strings.ToUpper`; the dialect's identifiers are
ASCII). -/
def toUpperChar (c : Char) : Char :=
  if 'a' ≤ c ∧ c ≤ 'z' then Char.ofNat (c.toNat - 32) else c

/-- `strings.ToUpper` on a string. -/
def goToUpper (s : String) : String := ⟨s.data.map toUpperChar⟩

/-- Lexer state.  The Go lexer keeps the input with `position` /
`readPosition` indices; this models the same state as the current byte
`ch` (0 at end of input) plus the unread suffix `rest`, and the line
counter. -/
structure Lexer where
  ch : Char
  rest : List Char
  line : ℕ
deriving DecidableEq

/-- `Lexer.readChar`. -/
def readChar (l : Lexer) : Lexer :=
  match l.rest with
  | [] => { l with ch := '\x00', rest := [] }
  | c :: cs => { l with ch := c, rest := cs }

/-- `lexer.New`: line counter 1, then one `readChar`. -/
def newLexer (input : String) : Lexer :=
  readChar { ch := '\x00', rest := input.data, line := 1 }

/-- `Lexer.peekChar`. -/
def peekChar (l : Lexer) : Char :=
  match l.rest with
  | [] => '\x00'
  | c :: _ => c

/-- `isLetter`: `unicode.IsLetter(rune(ch)) || ch == '_'`, on the ASCII
range the dialect uses. -/
def isLetterChar (c : Char) : Bool :=
  ('a' ≤ c ∧ c ≤ 'z') ∨ ('A' ≤ c ∧ c ≤ 'Z') ∨ c = '_'

/-- `Lexer.skipWhitespace`'s loop, structurally over the unread suffix
(the current char and the line counter ride along). -/
def skipWhitespaceAux : Char → ℕ → List Char → Lexer
  | ch, line, [] =>
      if ch = ' ' ∨ ch = '\t' ∨ ch = '\r' then ⟨'\x00', [], line⟩ else ⟨ch, [], line⟩
  | ch, line, c :: cs =>
      if ch = ' ' ∨ ch = '\t' ∨ ch = '\r' then skipWhitespaceAux c line cs
      else ⟨ch, c :: cs, line⟩

/-- `Lexer.skipWhitespace`: spaces, tabs and carriage returns. -/
def skipWhitespace (l : Lexer) : Lexer := skipWhitespaceAux l.ch l.line l.rest

/-- The loop of `readIdentifier` / `readNumber`, structurally over the
unread suffix: consume while the predicate holds, returning the consumed
literal and the state after it. -/
def readWhileAux (p : Char → Bool) : Char → ℕ → List Char → String × Lexer
  | ch, line, [] =>
      if p ch then (⟨[ch]⟩, ⟨'\x00', [], line⟩) else ("", ⟨ch, [], line⟩)
  | ch, line, c :: cs =>
      if p ch then
        let r := readWhileAux p c line cs
        (⟨ch :: r.1.data⟩, r.2)
      else ("", ⟨ch, c :: cs, line⟩)

/-- `readIdentifier`/`readNumber`'s consumption loop on a lexer state. -/
def readWhile (p : Char → Bool) (l : Lexer) : String × Lexer :=
  readWhileAux p l.ch l.line l.rest

/-- `Lexer.readString`'s loop, structurally over the unread suffix:
collect until a closing quote or end of input (an unterminated string is
tolerated), counting newlines. -/
def readStringChars : Char → ℕ → List Char → String × Lexer
  | ch, line, [] =>
      if ch = '"' ∨ ch = '\x00' then ("", ⟨ch, [], line⟩)
      else
        let line1 := if ch = '\n' then line + 1 else line
        (⟨[ch]⟩, ⟨'\x00', [], line1⟩)
  | ch, line, c :: cs =>
      if ch = '"' ∨ ch = '\x00' then ("", ⟨ch, c :: cs, line⟩)
      else
        let line1 := if ch = '\n' then line + 1 else line
        let r := readStringChars c line1 cs
        (⟨ch :: r.1.data⟩, r.2)

/-- `Lexer.readString` on a lexer state (after the opening quote has been
consumed). -/
def readStringAux (l : Lexer) : String × Lexer := readStringChars l.ch l.line l.rest

/-- `Lexer.NextToken`: skip whitespace, then the token switch (with the
one-character lookahead for `==`, `<=`, `>=`, `<>`), ending with the
trailing `readChar` except on the identifier/number early returns. -/
def nextToken (l0 : Lexer) : Token × Lexer :=
  let l := skipWhitespace l0
  if l.ch = '=' then
    if peekChar l = '=' then
      let l1 := readChar l
      (⟨"==", "==", l1.line⟩, readChar l1)
    else (⟨"=", "=", l.line⟩, readChar l)
  else if l.ch = '+' then (⟨"+", "+", l.line⟩, readChar l)
  else if l.ch = '-' then (⟨"-", "-", l.line⟩, readChar l)
  else if l.ch = '*' then (⟨"*", "*", l.line⟩, readChar l)
  else if l.ch = '/' then (⟨"/", "/", l.line⟩, readChar l)
  else if l.ch = '<' then
    if peekChar l = '=' then
      let l1 := readChar l
      (⟨"<=", "<=", l1.line⟩, readChar l1)
    else if peekChar l = '>' then
      let l1 := readChar l
      (⟨"<>", "<>", l1.line⟩, readChar l1)
    else (⟨"<", "<", l.line⟩, readChar l)
  else if l.ch = '>' then
    if peekChar l = '=' then
      let l1 := readChar l
      (⟨">=", ">=", l1.line⟩, readChar l1)
    else (⟨">", ">", l.line⟩, readChar l)
  else if l.ch = '(' then (⟨"(", "(", l.line⟩, readChar l)
  else if l.ch = ')' then (⟨")", ")", l.line⟩, readChar l)
  else if l.ch = ',' then (⟨",", ",", l.line⟩, readChar l)
  else if l.ch = ':' then (⟨":", ":", l.line⟩, readChar l)
  else if l.ch = ';' then (⟨";", ";", l.line⟩, readChar l)
  else if l.ch = '"' then
    let r := readStringAux (readChar l)
    (⟨"STRING", r.1, r.2.line⟩, readChar r.2)
  else if l.ch = '\n' then
    (⟨"NEWLINE", "\n", l.line⟩, readChar { l with line := l.line + 1 })
  else if l.ch = '\x00' then (⟨"EOF", "", l.line⟩, readChar l)
  else if isLetterChar l.ch then
    let r := readWhile (fun c => isLetterChar c || isDigitChar c) l
    (⟨lookupIdent (goToUpper r.1), r.1, r.2.line⟩, r.2)
  else if isDigitChar l.ch then
    let r := readWhile (fun c => isDigitChar c || c = '.') l
    (⟨"NUMBER", r.1, r.2.line⟩, r.2)
  else (⟨"ILLEGAL", ⟨[l.ch]⟩, l.line⟩, readChar l)

/-- The token stream of an input (fuelled; the Go driver calls `NextToken`
until EOF). -/
def tokenize : ℕ → Lexer → List Token
  | 0, _ => []
  | fuel + 1, l =>
      let r := nextToken l
      if r.1.ttype = "EOF" then [r.1]
      else r.1 :: tokenize fuel r.2

/-- The character shape every lexer NUMBER literal has: a digit first,
then digits and decimal points only. -/
def numberShape (s : String) : Prop :=
  s.data ≠ [] ∧ isDigitChar (s.data.headD '0') = true ∧
    s.data.all (fun c => isDigitChar c || c = '.') = true

/-!
## The parser (src/unnamed/part_004, package parser)

Pratt parser over the lexer's token stream.  `Parser` keeps the lexer,
the accumulated error messages and the two-token lookahead.  Go interface
nils are modelled by `Expr.nilE` (a nil `ast.Expression`); a parse
function that returns a typed-nil statement pointer yields `Stmt.nilS`
(the interface it is stored in is non-nil, so it is appended like any
statement).  The unbounded Go loops and the mutual recursion through
`parseExpression`/`parseStatement` are fuelled.
-/

/-- Parser state (`Parser` minus the fixed registration maps, which are
modelled by `hasPrefixFn`/`hasInfixFn`). -/
structure Parser where
  lx : Lexer
  errors : List String
  curToken : Token
  peekToken : Token
deriving DecidableEq

/-- `Parser.nextToken`. -/
def pNextToken (p : Parser) : Parser :=
  let r := nextToken p.lx
  { lx := r.2, errors := p.errors, curToken := p.peekToken, peekToken := r.1 }

/-- `parser.New`: zero-valued tokens, then two `nextToken`s. -/
def newParser (lx : Lexer) : Parser :=
  pNextToken (pNextToken { lx := lx, errors := [], curToken := ⟨"", "", 0⟩, peekToken := ⟨"", "", 0⟩ })

/-- Append a parser error. -/
def pushError (p : Parser) (msg : String) : Parser :=
  { p with errors := p.errors ++ [msg] }

/-- `Parser.peekError`. -/
def peekError (p : Parser) (t : String) : Parser :=
  pushError p ("expected next token to be " ++ t ++ ", got " ++ p.peekToken.ttype ++ " instead")

/-- `Parser.expectPeek`. -/
def expectPeek (t : String) (p : Parser) : Bool × Parser :=
  if p.peekToken.ttype = t then (true, pNextToken p) else (false, peekError p t)

/-- The `precedences` table (`LOWEST = 1` … `CALL = 8`); absent token
types get `LOWEST`. -/
def precedenceOf (t : String) : ℕ :=
  if t = "OR" ∨ t = "AND" then 2
  else if t = "==" ∨ t = "<>" then 3
  else if t = "<" ∨ t = ">" ∨ t = "<=" ∨ t = ">=" then 4
  else if t = "+" ∨ t = "-" then 5
  else if t = "/" ∨ t = "*" ∨ t = "MOD" then 6
  else if t = "(" then 8
  else 1

/-- `Parser.peekPrecedence`. -/
def peekPrecedence (p : Parser) : ℕ := precedenceOf p.peekToken.ttype

/-- `Parser.curPrecedence`. -/
def curPrecedence (p : Parser) : ℕ := precedenceOf p.curToken.ttype

/-- The token types registered in `prefixParseFns`. -/
def hasPrefixFn (t : String) : Bool :=
  t = "IDENT" ∨ t = "NUMBER" ∨ t = "STRING" ∨ t = "-" ∨ t = "NOT" ∨ t = "("

/-- The token types registered in `infixParseFns`. -/
def hasInfixFn (t : String) : Bool :=
  t = "+" ∨ t = "-" ∨ t = "/" ∨ t = "*" ∨ t = "MOD" ∨ t = "==" ∨ t = "<>" ∨
  t = "<" ∨ t = ">" ∨ t = "<=" ∨ t = ">=" ∨ t = "AND" ∨ t = "OR" ∨ t = "("

mutual

/-- `Parser.parseExpression` (fuelled). -/
def parseExpression : ℕ → ℕ → Parser → Expr × Parser
  | 0, _, p => (Expr.nilE, p)
  | fuel + 1, precedence, p =>
      if hasPrefixFn p.curToken.ttype then
        match callPrefixFn fuel p.curToken.ttype p with
        | (left, p1) => parseInfixLoop fuel precedence left p1
      else
        (Expr.nilE,
          pushError p ("no prefix parse function for " ++ p.curToken.ttype ++ " found"))

/-- The `for` loop of `parseExpression`. -/
def parseInfixLoop : ℕ → ℕ → Expr → Parser → Expr × Parser
  | 0, _, left, p => (left, p)
  | fuel + 1, precedence, left, p =>
      if p.peekToken.ttype ≠ "EOF" ∧ p.peekToken.ttype ≠ "NEWLINE" ∧
          p.peekToken.ttype ≠ ":" ∧ precedence < peekPrecedence p then
        if hasInfixFn p.peekToken.ttype then
          match callInfixFn fuel p.peekToken.ttype left (pNextToken p) with
          | (left2, p2) => parseInfixLoop fuel precedence left2 p2
        else (left, p)
      else (left, p)

/-- Dispatch of `prefixParseFns`: `parseIdentifier`, `parseNumberLiteral`
(with its `could not parse %q as number` error), `parseStringLiteral`,
`parsePrefixExpression` (MINUS and NOT, right operand at `PREFIX = 7`)
and `parseGroupedExpression`. -/
def callPrefixFn : ℕ → String → Parser → Expr × Parser
  | 0, _, p => (Expr.nilE, p)
  | fuel + 1, t, p =>
      if t = "IDENT" then (Expr.ident p.curToken.literal, p)
      else if t = "NUMBER" then
        match goParseFloat p.curToken.literal with
        | some v => (Expr.numberLit v, p)
        | none =>
            (Expr.nilE,
              pushError p ("could not parse \"" ++ p.curToken.literal ++ "\" as number"))
      else if t = "STRING" then (Expr.stringLit p.curToken.literal, p)
      else if t = "-" ∨ t = "NOT" then
        let op := p.curToken.literal
        match parseExpression fuel 7 (pNextToken p) with
        | (right, p2) => (Expr.prefixE op right, p2)
      else if t = "(" then
        match parseExpression fuel 1 (pNextToken p) with
        | (e, p2) =>
            match expectPeek ")" p2 with
            | (true, p3) => (e, p3)
            | (false, p3) => (Expr.nilE, p3)
      else (Expr.nilE, p)

/-- Dispatch of `infixParseFns`: `parseArrayAccess` for LPAREN (nil unless
the left operand is an identifier), `parseInfixExpression` otherwise (the
operator is the token literal, the right operand parses at
`curPrecedence`). -/
def callInfixFn : ℕ → String → Expr → Parser → Expr × Parser
  | 0, _, left, p => (left, p)
  | fuel + 1, t, left, p =>
      if t = "(" then
        match left with
        | Expr.ident name =>
            match parseExpression fuel 1 (pNextToken p) with
            | (idx, p2) =>
                match expectPeek ")" p2 with
                | (true, p3) => (Expr.arrayAcc name idx, p3)
                | (false, p3) => (Expr.nilE, p3)
        | _ => (Expr.nilE, p)
      else
        let op := p.curToken.literal
        let prec := curPrecedence p
        match parseExpression fuel prec (pNextToken p) with
        | (right, p2) => (Expr.infixE op left right, p2)

end

/-- The expression/separator loop of `parsePrintStatement`.  The Bool is
`TrailingNewline`. -/
def parsePrintLoop : ℕ → ℕ → Parser → List Expr → List String →
    List Expr × List String × Bool × Parser
  | 0, _, p, es, ss => (es, ss, true, p)
  | fuel + 1, efuel, p, es, ss =>
      match parseExpression efuel 1 p with
      | (e, p1) =>
          let es1 := if e = Expr.nilE then es else es ++ [e]
          if p1.peekToken.ttype = ";" then
            let p2 := pNextToken p1
            let ss1 := ss ++ [""]
            if p2.peekToken.ttype = "EOF" ∨ p2.peekToken.ttype = "NEWLINE" ∨
                p2.peekToken.ttype = ":" then
              (es1, ss1, false, p2)
            else parsePrintLoop fuel efuel (pNextToken p2) es1 ss1
          else if p1.peekToken.ttype = "," then
            let p2 := pNextToken p1
            let ss1 := ss ++ ["\t"]
            if p2.peekToken.ttype = "EOF" ∨ p2.peekToken.ttype = "NEWLINE" ∨
                p2.peekToken.ttype = ":" then
              (es1, ss1, false, p2)
            else parsePrintLoop fuel efuel (pNextToken p2) es1 ss1
          else (es1, ss, true, p1)

/-- `Parser.parsePrintStatement`. -/
def parsePrintStatement (efuel : ℕ) (p : Parser) : Stmt × Parser :=
  let p1 := pNextToken p
  if p1.curToken.ttype = "EOF" ∨ p1.curToken.ttype = "NEWLINE" ∨ p1.curToken.ttype = ":" then
    (Stmt.print [] [] true, p1)
  else
    match parsePrintLoop efuel efuel p1 [] [] with
    | (es, ss, tn, p2) => (Stmt.print es ss tn, p2)

/-- `Parser.parseLetStatement`. -/
def parseLetStatement (efuel : ℕ) (p : Parser) : Stmt × Parser :=
  match expectPeek "IDENT" p with
  | (false, p1) => (Stmt.nilS, p1)
  | (true, p1) =>
      let name := p1.curToken.literal
      match expectPeek "=" p1 with
      | (false, p2) => (Stmt.nilS, p2)
      | (true, p2) =>
          match parseExpression efuel 1 (pNextToken p2) with
          | (v, p3) => (Stmt.letS name v, p3)

/-- `Parser.parseGotoStatement`. -/
def parseGotoStatement (efuel : ℕ) (p : Parser) : Stmt × Parser :=
  match parseExpression efuel 1 (pNextToken p) with
  | (e, p1) => (Stmt.goto e, p1)

/-- `Parser.parseGosubStatement`. -/
def parseGosubStatement (efuel : ℕ) (p : Parser) : Stmt × Parser :=
  match parseExpression efuel 1 (pNextToken p) with
  | (e, p1) => (Stmt.gosub e, p1)

/-- `Parser.parseForStatement` (missing STEP defaults to the literal 1). -/
def parseForStatement (efuel : ℕ) (p : Parser) : Stmt × Parser :=
  match expectPeek "IDENT" p with
  | (false, p1) => (Stmt.nilS, p1)
  | (true, p1) =>
      let v := p1.curToken.literal
      match expectPeek "=" p1 with
      | (false, p2) => (Stmt.nilS, p2)
      | (true, p2) =>
          match parseExpression efuel 1 (pNextToken p2) with
          | (startE, p3) =>
              match expectPeek "TO" p3 with
              | (false, p4) => (Stmt.nilS, p4)
              | (true, p4) =>
                  match parseExpression efuel 1 (pNextToken p4) with
                  | (stopE, p5) =>
                      if p5.peekToken.ttype = "STEP" then
                        match parseExpression efuel 1 (pNextToken (pNextToken p5)) with
                        | (stepE, p6) => (Stmt.forS v startE stopE stepE, p6)
                      else
                        (Stmt.forS v startE stopE (Expr.numberLit (GoNum.finite 1)), p5)

/-- `Parser.parseNextStatement`. -/
def parseNextStatement (p : Parser) : Stmt × Parser :=
  if p.peekToken.ttype = "IDENT" then
    let p1 := pNextToken p
    (Stmt.next (some p1.curToken.literal), p1)
  else (Stmt.next none, p)

/-- The identifier-list loop of `parseInputStatement`. -/
def parseInputLoop : ℕ → Parser → List String → List String × Parser
  | 0, p, acc => (acc, p)
  | fuel + 1, p, acc =>
      if p.curToken.ttype = "IDENT" then
        let acc1 := acc ++ [p.curToken.literal]
        if p.peekToken.ttype = "," then
          parseInputLoop fuel (pNextToken (pNextToken p)) acc1
        else (acc1, p)
      else (acc, p)

/-- `Parser.parseInputStatement`.  The Go condition
`!p.expectPeek(SEMICOLON) && !p.expectPeek(COMMA)` short-circuits: when
the first `expectPeek` succeeds the second is never run; when it fails
its peek error is recorded and the comma is tried. -/
def parseInputStatement (efuel : ℕ) (p : Parser) : Stmt × Parser :=
  let p1 := pNextToken p
  if p1.curToken.ttype = "STRING" then
    let prompt := p1.curToken.literal
    match expectPeek ";" p1 with
    | (true, p2) =>
        match parseInputLoop efuel (pNextToken p2) [] with
        | (vs, p3) => (Stmt.inputS prompt vs, p3)
    | (false, p2) =>
        match expectPeek "," p2 with
        | (true, p3) =>
            match parseInputLoop efuel (pNextToken p3) [] with
            | (vs, p4) => (Stmt.inputS prompt vs, p4)
        | (false, p3) => (Stmt.nilS, p3)
  else
    match parseInputLoop efuel p1 [] with
    | (vs, p2) => (Stmt.inputS "" vs, p2)

/-- The comment-accumulation loop of `parseRemStatement` (each token
literal is followed by a space). -/
def parseRemLoop : ℕ → Parser → String → String × Parser
  | 0, p, acc => (acc, p)
  | fuel + 1, p, acc =>
      if p.curToken.ttype ≠ "EOF" ∧ p.curToken.ttype ≠ ":" ∧ p.curToken.ttype ≠ "NEWLINE" then
        parseRemLoop fuel (pNextToken p) (acc ++ p.curToken.literal ++ " ")
      else (acc, p)

/-- `Parser.parseRemStatement`. -/
def parseRemStatement (efuel : ℕ) (p : Parser) : Stmt × Parser :=
  match parseRemLoop efuel (pNextToken p) "" with
  | (c, p1) => (Stmt.rem c, p1)

/-- `Parser.parseDimStatement`. -/
def parseDimStatement (efuel : ℕ) (p : Parser) : Stmt × Parser :=
  match expectPeek "IDENT" p with
  | (false, p1) => (Stmt.nilS, p1)
  | (true, p1) =>
      let name := p1.curToken.literal
      match expectPeek "(" p1 with
      | (false, p2) => (Stmt.nilS, p2)
      | (true, p2) =>
          match parseExpression efuel 1 (pNextToken p2) with
          | (sz, p3) =>
              match expectPeek ")" p3 with
              | (false, p4) => (Stmt.nilS, p4)
              | (true, p4) => (Stmt.dim name sz, p4)

/-- `Parser.parseExpressionStatement`. -/
def parseExpressionStatement (efuel : ℕ) (p : Parser) : Stmt × Parser :=
  match parseExpression efuel 1 p with
  | (e, p1) => (Stmt.exprS e, p1)

mutual

/-- `Parser.parseStatement`: one statement plus the colon-chained rest;
a single statement is returned bare, several are wrapped in a
`SequenceStatement`. -/
def parseStatement : ℕ → ℕ → Parser → Stmt × Parser
  | 0, _, p => (Stmt.nilS, p)
  | fuel + 1, efuel, p =>
      match parseSingleStatement fuel efuel p with
      | (s, p1) =>
          match parseColonLoop fuel efuel p1 [s] with
          | ([s0], p2) => (s0, p2)
          | (stmts, p2) => (Stmt.seqS stmts, p2)
termination_by structural fuel => fuel

/-- The colon loop of `parseStatement`: while the peek token is `:`,
consume it and parse another single statement, stopping at
NEWLINE/EOF/`:`/ELSE. -/
def parseColonLoop : ℕ → ℕ → Parser → List Stmt → List Stmt × Parser
  | 0, _, p, acc => (acc, p)
  | fuel + 1, efuel, p, acc =>
      if p.peekToken.ttype = ":" then
        let p1 := pNextToken (pNextToken p)
        if p1.curToken.ttype = "NEWLINE" ∨ p1.curToken.ttype = "EOF" ∨
            p1.curToken.ttype = ":" ∨ p1.curToken.ttype = "ELSE" then
          (acc, p1)
        else
          match parseSingleStatement fuel efuel p1 with
          | (s, p2) => parseColonLoop fuel efuel p2 (acc ++ [s])
      else (acc, p)
termination_by structural fuel => fuel

/-- `Parser.parseSingleStatement`: dispatch on the current token type;
RETURN and END consume nothing further. -/
def parseSingleStatement : ℕ → ℕ → Parser → Stmt × Parser
  | 0, _, p => (Stmt.nilS, p)
  | fuel + 1, efuel, p =>
      if p.curToken.ttype = "PRINT" then parsePrintStatement efuel p
      else if p.curToken.ttype = "LET" then parseLetStatement efuel p
      else if p.curToken.ttype = "IF" then parseIfStatement fuel efuel p
      else if p.curToken.ttype = "GOTO" then parseGotoStatement efuel p
      else if p.curToken.ttype = "GOSUB" then parseGosubStatement efuel p
      else if p.curToken.ttype = "RETURN" then (Stmt.returnS, p)
      else if p.curToken.ttype = "FOR" then parseForStatement efuel p
      else if p.curToken.ttype = "NEXT" then parseNextStatement p
      else if p.curToken.ttype = "INPUT" then parseInputStatement efuel p
      else if p.curToken.ttype = "END" then (Stmt.endS, p)
      else if p.curToken.ttype = "REM" then parseRemStatement efuel p
      else if p.curToken.ttype = "DIM" then parseDimStatement efuel p
      else parseExpressionStatement efuel p
termination_by structural fuel => fuel

/-- `Parser.parseIfStatement`: the consequence and the optional ELSE
alternative are whole `parseStatement` groups. -/
def parseIfStatement : ℕ → ℕ → Parser → Stmt × Parser
  | 0, _, p => (Stmt.nilS, p)
  | fuel + 1, efuel, p =>
      match parseExpression efuel 1 (pNextToken p) with
      | (cond, p1) =>
          match expectPeek "THEN" p1 with
          | (false, p2) => (Stmt.nilS, p2)
          | (true, p2) =>
              match parseStatement fuel efuel (pNextToken p2) with
              | (cons, p3) =>
                  if p3.peekToken.ttype = "ELSE" then
                    match parseStatement fuel efuel (pNextToken (pNextToken p3)) with
                    | (alt, p4) => (Stmt.ifS cond cons (some alt), p4)
                  else (Stmt.ifS cond cons none, p3)
termination_by structural fuel => fuel

end

/-- Result of `parseStatementOrLine`: a numbered `LineStatement`, the
typed-nil `*ast.LineStatement` a line-number parse error leaves behind
(`ParseProgram` then dereferences it and panics), or a plain statement. -/
inductive ParsedLine where
  | line (n : ℤ) (s : Stmt)
  | lineNil
  | plain (s : Stmt)

/-- `Parser.parseLineStatement`. -/
def parseLineStatement (sfuel efuel : ℕ) (p : Parser) : ParsedLine × Parser :=
  match goAtoi p.curToken.literal with
  | none =>
      (ParsedLine.lineNil,
        pushError p ("could not parse \"" ++ p.curToken.literal ++ "\" as line number"))
  | some n =>
      match parseStatement sfuel efuel (pNextToken p) with
      | (s, p1) => (ParsedLine.line n s, p1)

/-- `Parser.parseStatementOrLine`. -/
def parseStatementOrLine (sfuel efuel : ℕ) (p : Parser) : ParsedLine × Parser :=
  if p.curToken.ttype = "NUMBER" then parseLineStatement sfuel efuel p
  else
    match parseStatement sfuel efuel p with
    | (s, p1) => (ParsedLine.plain s, p1)

/-- The loop of `Parser.ParseProgram` over an association list keyed by
line number (key 0 for an immediate statement); `none` models the
nil-pointer panic on a failed line statement. -/
def parseProgramLoop : ℕ → ℕ → Parser → List (ℤ × Stmt) →
    Option (List (ℤ × Stmt) × Parser)
  | 0, _, p, acc => some (acc, p)
  | fuel + 1, sfuel, p, acc =>
      if p.curToken.ttype = "EOF" then some (acc, p)
      else if p.curToken.ttype = "NEWLINE" then
        parseProgramLoop fuel sfuel (pNextToken p) acc
      else
        match parseStatementOrLine sfuel sfuel p with
        | (ParsedLine.line n s, p1) =>
            parseProgramLoop fuel sfuel (pNextToken p1) (setA acc n s)
        | (ParsedLine.lineNil, _) => none
        | (ParsedLine.plain s, p1) =>
            parseProgramLoop fuel sfuel (pNextToken p1) (setA acc 0 s)

/-- `Parser.ParseProgram` from a fresh parser state. -/
def parseProgram (fuel : ℕ) (p : Parser) : Option (List (ℤ × Stmt) × Parser) :=
  parseProgramLoop fuel fuel p []

/-- Lex and parse a source text: the parsed program keyed by line number
paired with the parser's error list (`none` for the nil-line panic). -/
def parseProgramFromString (fuel : ℕ) (src : String) :
    Option (List (ℤ × Stmt) × List String) :=
  (parseProgram fuel (newParser (newLexer src))).map (fun r => (r.1, r.2.errors))

/-- The C3 conformance program source. -/
def ifColonSrc : String := "10 IF 1 THEN PRINT \"Y\": PRINT \"Z\" ELSE PRINT \"N\""

/-- The statement `ifColonSrc` parses to: both colon-chained PRINTs in the
consequence, the third alone in the alternative. -/
def ifColonStmt : Stmt :=
  Stmt.ifS (Expr.numberLit (GoNum.finite 1))
    (Stmt.seqS [Stmt.print [Expr.stringLit "Y"] [] true,
                Stmt.print [Expr.stringLit "Z"] [] true])
    (some (Stmt.print [Expr.stringLit "N"] [] true))


/-- The invariant behind C9's key-nonnegativity: a NUMBER token's literal
starts with a digit (true of every token the lexer emits). -/
def tokNum (t : Token) : Prop :=
  t.ttype = "NUMBER" → isDigitChar (t.literal.data.headD '0') = true

/-- Both lookahead tokens of the parser satisfy `tokNum`. -/
def ParserOK (p : Parser) : Prop := tokNum p.curToken ∧ tokNum p.peekToken

/-! ## Helper lemmas: association lists -/

theorem lookupA_setA_self {κ α : Type} [DecidableEq κ] (l : List (κ × α)) (k : κ) (v : α) :
    lookupA (setA l k v) k = some v := by
  induction l with
  | nil => simp [setA, lookupA]
  | cons p rest ih =>
      obtain ⟨k', v'⟩ := p
      by_cases h : k' = k
      · simp [setA, h, lookupA]
      · simp [setA, h, lookupA, ih]

theorem lookupA_setA_ne {κ α : Type} [DecidableEq κ] (l : List (κ × α)) (k k' : κ) (v : α)
    (h : k' ≠ k) : lookupA (setA l k v) k' = lookupA l k' := by
  induction l with
  | nil => simp [setA, lookupA, Ne.symm h]
  | cons p rest ih =>
      obtain ⟨k'', v''⟩ := p
      by_cases h2 : k'' = k
      · subst h2
        simp [setA, lookupA, Ne.symm h]
      · simp [setA, h2, lookupA, ih]

theorem isSome_lookupA_setA {κ α : Type} [DecidableEq κ] (l : List (κ × α)) (k k' : κ) (v : α)
    (h : (lookupA l k').isSome = true) : (lookupA (setA l k v) k').isSome = true := by
  by_cases hk : k' = k
  · subst hk; rw [lookupA_setA_self]; rfl
  · rw [lookupA_setA_ne _ _ _ _ hk]; exact h

theorem mem_setA {κ α : Type} [DecidableEq κ] (l : List (κ × α)) (k : κ) (v : α)
    (p : κ × α) : p ∈ setA l k v → p = (k, v) ∨ p ∈ l := by
  induction l with
  | nil => intro h; simp [setA] at h; exact Or.inl h
  | cons q rest ih =>
      obtain ⟨k', v'⟩ := q
      by_cases h2 : k' = k
      · intro h; simp [setA, h2] at h
        rcases h with h | h
        · exact Or.inl (by simp [h])
        · exact Or.inr (by simp [h])
      · intro h; simp [setA, h2] at h
        rcases h with h | h
        · exact Or.inr (by simp [h])
        · rcases ih h with h3 | h3
          · exact Or.inl h3
          · exact Or.inr (by simp [h3])

theorem mem_delA {κ α : Type} [DecidableEq κ] (l : List (κ × α)) (k : κ)
    (p : κ × α) : p ∈ delA l k → p ∈ l := by
  induction l with
  | nil => intro h; simp [delA] at h
  | cons q rest ih =>
      obtain ⟨k', v'⟩ := q
      by_cases h2 : k' = k
      · intro h; simp [delA, h2] at h; exact List.mem_cons_of_mem _ h
      · intro h; simp [delA, h2] at h
        rcases h with h | h
        · simp [h]
        · exact List.mem_cons_of_mem _ (ih h)

theorem lookupA_mem {κ α : Type} [DecidableEq κ] (l : List (κ × α)) (k : κ) (v : α)
    (h : lookupA l k = some v) : (k, v) ∈ l := by
  induction l with
  | nil => simp [lookupA] at h
  | cons q rest ih =>
      obtain ⟨k', v'⟩ := q
      by_cases h2 : k' = k
      · subst h2
        simp [lookupA] at h
        simp [h]
      · simp [lookupA, h2] at h
        exact List.mem_cons_of_mem _ (ih h)

theorem isSome_lookupA_inputAssign (env : List (String × Value)) (vs ws : List String)
    (k : String) (h : (lookupA env k).isSome = true) :
    (lookupA (inputAssign env vs ws) k).isSome = true := by
  induction vs generalizing env ws with
  | nil => simpa [inputAssign] using h
  | cons v rest ih =>
      cases ws with
      | nil => exact ih _ [] (isSome_lookupA_setA _ _ _ _ h)
      | cons w ws' => exact ih _ ws' (isSome_lookupA_setA _ _ _ _ h)

/-! ## Helper lemmas: preservation of the loop-variable invariant -/

theorem ievalNext_inv (v : Option String) (st st' : IState) (hinv : loopVarsBound st)
    (heq : ievalNext v st = .ok st') : loopVarsBound st' := by
  simp only [ievalNext] at heq
  split at heq
  · cases heq
  · split at heq
    · cases heq
    · split at heq
      · cases heq
      · split at heq
        · repeat' split at heq
          all_goals
            first
              | (cases heq
                 intro p hp
                 exact isSome_lookupA_setA _ _ _ _ (hinv p hp))
              | (cases heq
                 intro p hp
                 exact hinv p (mem_delA _ _ _ hp))
        · cases heq

mutual

theorem ieval_inv (lines : List ℤ) :
    (s : Stmt) → ∀ (st st' : IState), loopVarsBound st →
      ievalStmt lines s st = .ok st' → loopVarsBound st'
  | .print exprs seps tnl => by
      intro st st' hinv heq
      simp only [ievalStmt] at heq
      split at heq
      · cases heq; exact hinv
      · split at heq
        · cases heq
        · cases heq; exact hinv
  | .letS name value => by
      intro st st' hinv heq
      simp only [ievalStmt] at heq
      split at heq
      · cases heq
      · cases heq
        intro p hp
        exact isSome_lookupA_setA _ _ _ _ (hinv p hp)
  | .ifS cond cons alt => by
      intro st st' hinv heq
      cases alt with
      | none =>
          simp only [ievalStmt] at heq
          split at heq
          · cases heq
          · split at heq
            · exact ieval_inv lines cons st st' hinv heq
            · cases heq; exact hinv
      | some a =>
          simp only [ievalStmt] at heq
          split at heq
          · cases heq
          · split at heq
            · exact ieval_inv lines cons st st' hinv heq
            · exact ieval_inv lines a st st' hinv heq
  | .goto lineExpr => by
      intro st st' hinv heq
      simp only [ievalStmt] at heq
      split at heq
      · cases heq
      · split at heq
        · cases heq; exact hinv
        · cases heq
      · cases heq
  | .gosub lineExpr => by
      intro st st' hinv heq
      simp only [ievalStmt] at heq
      split at heq
      · cases heq
      · split at heq
        · cases heq; exact hinv
        · cases heq
      · cases heq
  | .returnS => by
      intro st st' hinv heq
      simp only [ievalStmt] at heq
      split at heq
      · cases heq
      · cases heq; exact hinv
  | .forS v startE stopE stepE => by
      intro st st' hinv heq
      simp only [ievalStmt] at heq
      split at heq
      · cases heq
      · split at heq
        · cases heq
        · split at heq
          · cases heq
          · cases heq
            intro p hp
            rcases mem_setA _ _ _ _ hp with h | h
            · subst h
              rw [lookupA_setA_self]; rfl
            · exact isSome_lookupA_setA _ _ _ _ (hinv p h)
          · cases heq
        · cases heq
      · cases heq
  | .next v => by
      intro st st' hinv heq
      simp only [ievalStmt] at heq
      exact ievalNext_inv v st st' hinv heq
  | .inputS prompt targets => by
      intro st st' hinv heq
      simp only [ievalStmt] at heq
      split at heq
      · cases heq
      · cases heq
        intro p hp
        exact isSome_lookupA_inputAssign _ _ _ _ (hinv p hp)
  | .endS => by
      intro st st' hinv heq
      simp only [ievalStmt] at heq
      cases heq; exact hinv
  | .rem c => by
      intro st st' hinv heq
      simp only [ievalStmt] at heq
      cases heq; exact hinv
  | .dim name size => by
      intro st st' hinv heq
      simp only [ievalStmt] at heq
      split at heq
      · cases heq
      · cases heq; exact hinv
      · cases heq
  | .exprS e => by
      intro st st' hinv heq
      simp only [ievalStmt] at heq
      split at heq
      · cases heq
      · cases heq; exact hinv
  | .seqS stmts => by
      intro st st' hinv heq
      simp only [ievalStmt] at heq
      exact ievalList_inv lines stmts st st' hinv heq
  | .nilS => by
      intro st st' hinv heq
      simp only [ievalStmt] at heq
      cases heq

theorem ievalList_inv (lines : List ℤ) :
    (ss : List Stmt) → ∀ (st st' : IState), loopVarsBound st →
      ievalStmtList lines ss st = .ok st' → loopVarsBound st'
  | [] => by
      intro st st' hinv heq
      simp only [ievalStmtList] at heq
      cases heq; exact hinv
  | s :: rest => by
      intro st st' hinv heq
      simp only [ievalStmtList] at heq
      split at heq
      · cases heq
      · next st1 h1 =>
          exact ievalList_inv lines rest st1 st' (ieval_inv lines s st st1 hinv h1) heq

end

/-! ## Helper lemmas: error-message discrimination -/

theorem ne_loopVarNotFound_of_head (s : String) (h : s.data.head? ≠ some 'l')
    (n : String) : s ≠ "loop variable " ++ n ++ " not found" := by
  intro he
  apply h
  rw [he]
  rfl

theorem loopVarNotFound_rev_take (n : String) :
    ("loop variable " ++ n ++ " not found").data.reverse.take 10 = " not found".data.reverse := by
  have h : ("loop variable " ++ n ++ " not found").data
      = ("loop variable " ++ n).data ++ " not found".data := rfl
  rw [h, List.reverse_append]
  have hlen : (" not found".data.reverse).length = 10 := rfl
  rw [← hlen, List.take_left]

theorem mustBeNumber_ne_loopVarNotFound (n : String) :
    "loop variable must be a number" ≠ "loop variable " ++ n ++ " not found" := by
  intro he
  have h2 := congrArg (fun s => s.data.reverse.take 10) he
  simp only [loopVarNotFound_rev_take] at h2
  exact absurd h2 (by decide)

/-! ## Helper lemmas: backend agreement, expressions -/

theorem truthy_eq (v : Value) : truthy v = isTruthy v := by cases v <;> rfl

theorem prefixOp_eq (op : String) (v : Value) : applyPrefixOp op v = evalPrefixOp op v := by
  unfold applyPrefixOp evalPrefixOp
  rw [truthy_eq]

theorem agreeE_refl (a : Except String Value) : agreeE a a := by
  cases a with
  | error m => exact Or.inr ⟨⟨_, rfl⟩, ⟨_, rfl⟩⟩
  | ok v => exact Or.inl ⟨_, rfl, rfl⟩

set_option maxHeartbeats 1600000 in
theorem infixOp_agree (op : String) (l r : Value) :
    agreeE (evalInfixOp op l r) (applyInfixOp op l r) := by
  cases l with
  | num a =>
      cases r with
      | num b =>
          by_cases h1 : op = "+"
          · simp only [evalInfixOp, applyInfixOp, h1]
            exact agreeE_refl _
          by_cases h2 : op = "-"
          · simp only [evalInfixOp, applyInfixOp, h2]
            exact agreeE_refl _
          by_cases h3 : op = "*"
          · simp only [evalInfixOp, applyInfixOp, h3]
            exact agreeE_refl _
          by_cases h4 : op = "/"
          · simp only [evalInfixOp, applyInfixOp, h4]
            exact agreeE_refl _
          by_cases h5 : op = "MOD"
          · simp only [evalInfixOp, applyInfixOp, h5]
            exact agreeE_refl _
          by_cases h6 : op = "<"
          · simp only [evalInfixOp, applyInfixOp, h6]
            exact agreeE_refl _
          by_cases h7 : op = ">"
          · simp only [evalInfixOp, applyInfixOp, h7]
            exact agreeE_refl _
          by_cases h8 : op = "<="
          · simp only [evalInfixOp, applyInfixOp, h8]
            exact agreeE_refl _
          by_cases h9 : op = ">="
          · simp only [evalInfixOp, applyInfixOp, h9]
            exact agreeE_refl _
          by_cases h10 : op = "=="
          · simp only [evalInfixOp, applyInfixOp, h10]
            exact agreeE_refl _
          by_cases h11 : op = "<>"
          · simp only [evalInfixOp, applyInfixOp, h11]
            exact agreeE_refl _
          by_cases h12 : op = "AND"
          · simp only [evalInfixOp, applyInfixOp, h12]
            exact agreeE_refl _
          by_cases h13 : op = "OR"
          · simp only [evalInfixOp, applyInfixOp, h13]
            exact agreeE_refl _
          simp only [evalInfixOp, applyInfixOp, if_neg h1, if_neg h2, if_neg h3, if_neg h4, if_neg h5, if_neg h6, if_neg h7, if_neg h8, if_neg h9, if_neg h10, if_neg h11, if_neg h12, if_neg h13]
          exact Or.inr ⟨⟨_, rfl⟩, ⟨_, rfl⟩⟩
      | str b =>
          exact Or.inr ⟨⟨_, rfl⟩, ⟨_, rfl⟩⟩
  | str a =>
      cases r with
      | num b =>
          exact Or.inr ⟨⟨_, rfl⟩, ⟨_, rfl⟩⟩
      | str b =>
          by_cases g1 : op = "+"
          · simp only [evalInfixOp, applyInfixOp, g1]
            exact agreeE_refl _
          by_cases g2 : op = "=="
          · simp only [evalInfixOp, applyInfixOp, g2]
            exact agreeE_refl _
          by_cases g3 : op = "<>"
          · simp only [evalInfixOp, applyInfixOp, g3]
            exact agreeE_refl _
          simp only [evalInfixOp, applyInfixOp, if_neg g1, if_neg g2, if_neg g3]
          exact Or.inr ⟨⟨_, rfl⟩, ⟨_, rfl⟩⟩

theorem getOrZero_eq (vars : List (String × Value)) (name : String) :
    (.ok (getOrZero vars name) : Except String Value) =
      match lookupA vars name with
      | none => .ok (.num (GoNum.finite 0))
      | some v => .ok v := by
  unfold getOrZero
  cases lookupA vars name <;> rfl

theorem evalExpr_agree (vars : List (String × Value))
    (arrays : List (String × List (ℤ × Value))) :
    (e : Expr) → agreeE (evalExpression vars arrays e) (cEvalExpr vars arrays e)
  | .numberLit v => Or.inl ⟨_, rfl, rfl⟩
  | .stringLit s => Or.inl ⟨_, rfl, rfl⟩
  | .ident name => by
      left
      refine ⟨getOrZero vars name, ?_, rfl⟩
      simp only [evalExpression]
      rw [getOrZero_eq]
  | .infixE op l r => by
      simp only [evalExpression, cEvalExpr]
      rcases evalExpr_agree vars arrays l with ⟨lv, hl, hl'⟩ | ⟨⟨m, hm⟩, ⟨m', hm'⟩⟩
      · rw [hl, hl']
        rcases evalExpr_agree vars arrays r with ⟨rv, hr, hr'⟩ | ⟨⟨m, hm⟩, ⟨m', hm'⟩⟩
        · rw [hr, hr']
          exact infixOp_agree op lv rv
        · rw [hm, hm']
          exact Or.inr ⟨⟨_, rfl⟩, ⟨_, rfl⟩⟩
      · rw [hm, hm']
        exact Or.inr ⟨⟨_, rfl⟩, ⟨_, rfl⟩⟩
  | .prefixE op r => by
      simp only [evalExpression, cEvalExpr]
      rcases evalExpr_agree vars arrays r with ⟨rv, hr, hr'⟩ | ⟨⟨m, hm⟩, ⟨m', hm'⟩⟩
      · rw [hr, hr']
        change agreeE (evalPrefixOp op rv) (applyPrefixOp op rv)
        rw [prefixOp_eq]
        exact agreeE_refl _
      · rw [hm, hm']
        exact Or.inr ⟨⟨_, rfl⟩, ⟨_, rfl⟩⟩
  | .arrayAcc name idx => by
      simp only [evalExpression, cEvalExpr]
      rcases evalExpr_agree vars arrays idx with ⟨iv, hi, hi'⟩ | ⟨⟨m, hm⟩, ⟨m', hm'⟩⟩
      · rw [hi, hi']
        unfold arrayAccess
        cases hl : lookupA arrays name with
        | none => exact Or.inr ⟨⟨_, rfl⟩, ⟨_, rfl⟩⟩
        | some arr =>
            cases iv with
            | num n => exact agreeE_refl _
            | str s => exact agreeE_refl _
      · rw [hm, hm']
        cases hl : lookupA arrays name with
        | none => exact Or.inr ⟨⟨_, rfl⟩, ⟨_, rfl⟩⟩
        | some arr => exact Or.inr ⟨⟨_, rfl⟩, ⟨_, rfl⟩⟩
  | .nilE => Or.inr ⟨⟨_, rfl⟩, ⟨_, rfl⟩⟩

/-! ## Helper lemmas: backend agreement, state projection -/

theorem projSt_vars (st : IState) : (projSt st).vars = st.vars := rfl

theorem projSt_arrays (st : IState) : (projSt st).arrays = st.arrays := rfl

theorem projSt_inputLines (st : IState) : (projSt st).inputLines = st.inputLines := rfl

theorem projSt_output (st : IState) : (projSt st).output = st.output := rfl

theorem projSt_callStack (st : IState) : (projSt st).callStack = st.callStack := rfl

theorem projSt_pc (st : IState) : (projSt st).pc = st.pc := rfl

theorem projSt_halted (st : IState) : (projSt st).halted = st.halted := rfl

theorem projSt_forLoops (st : IState) :
    (projSt st).forLoops = st.forLoops.map (fun p => (p.1, projLoop p.2)) := rfl

theorem lookupA_map_proj (l : List (String × ForLoopState)) (k : String) :
    lookupA (l.map (fun p => (p.1, projLoop p.2))) k = (lookupA l k).map projLoop := by
  induction l with
  | nil => rfl
  | cons p rest ih =>
      obtain ⟨k', v⟩ := p
      by_cases h : k' = k <;> simp [lookupA, h, ih]

theorem setA_map_proj (l : List (String × ForLoopState)) (k : String) (v : ForLoopState) :
    (setA l k v).map (fun p => (p.1, projLoop p.2)) =
      setA (l.map (fun p => (p.1, projLoop p.2))) k (projLoop v) := by
  induction l with
  | nil => rfl
  | cons p rest ih =>
      obtain ⟨k', v'⟩ := p
      by_cases h : k' = k <;> simp [setA, h, ih]

theorem delA_map_proj (l : List (String × ForLoopState)) (k : String) :
    (delA l k).map (fun p => (p.1, projLoop p.2)) =
      delA (l.map (fun p => (p.1, projLoop p.2))) k := by
  induction l with
  | nil => rfl
  | cons p rest ih =>
      obtain ⟨k', v'⟩ := p
      by_cases h : k' = k <;> simp [delA, h, ih]

theorem buildLineIndex_eq (lines : List ℤ) :
    ∀ (i t : ℤ), lookupA (buildLineIndexFrom i lines) t = findLineIdxFrom i lines t := by
  induction lines with
  | nil => intro i t; rfl
  | cons l rest ih =>
      intro i t
      by_cases h : l = t <;> simp [buildLineIndexFrom, findLineIdxFrom, lookupA, h, ih]

theorem printLoop_agree (vars : List (String × Value))
    (arrays : List (String × List (ℤ × Value))) :
    (exprs : List Expr) → ∀ (seps : List String) (out : String),
      (printLoop (evalExpression vars arrays) exprs seps out).1
          = (printLoop (cEvalExpr vars arrays) exprs seps out).1 ∧
        (printLoop (evalExpression vars arrays) exprs seps out).2.isNone
          = (printLoop (cEvalExpr vars arrays) exprs seps out).2.isNone
  | [] => fun seps out => ⟨rfl, rfl⟩
  | e :: es => by
      intro seps out
      simp only [printLoop]
      rcases evalExpr_agree vars arrays e with ⟨v, hv, hv'⟩ | ⟨⟨m, hm⟩, ⟨m', hm'⟩⟩
      · rw [hv, hv']
        cases seps with
        | nil => exact printLoop_agree vars arrays es [] (out ++ v.inspect)
        | cons s ss => exact printLoop_agree vars arrays es ss (out ++ v.inspect ++ s)
      · rw [hm, hm']
        exact ⟨rfl, rfl⟩

theorem next_agree (v : Option String) (st : IState) (hinv : loopVarsBound st) :
    agreeR (ievalNext v st) (cevalNext v (projSt st)) := by
  simp only [ievalNext, cevalNext, projSt_forLoops, projSt_vars]
  have hname :
      (match v with
        | some n => n
        | none =>
          match st.forLoops.map (fun p => (p.1, projLoop p.2)) with
          | [] => ""
          | (n, _) :: _ => n) =
      (match v with
        | some n => n
        | none => match st.forLoops with | [] => "" | (n, _) :: _ => n) := by
    cases v with
    | some n => rfl
    | none => cases st.forLoops <;> rfl
  rw [hname]
  clear hname
  set vn := (match v with
      | some n => n
      | none => match st.forLoops with | [] => "" | (n, _) :: _ => n) with hvndef
  clear hvndef
  by_cases hvn : vn = ""
  · rw [if_pos hvn, if_pos hvn]
    exact Or.inr ⟨_, _, _, _, rfl, rfl, rfl⟩
  · rw [if_neg hvn, if_neg hvn]
    rw [lookupA_map_proj]
    cases hls : lookupA st.forLoops vn with
    | none => exact Or.inr ⟨_, _, _, _, rfl, rfl, rfl⟩
    | some ls =>
        dsimp only [Option.map, projLoop]
        have hmem := hinv _ (lookupA_mem _ _ _ hls)
        rcases Option.isSome_iff_exists.mp hmem with ⟨val, hval⟩
        rw [hval]
        unfold getOrZero
        rw [hval]
        dsimp only
        cases val with
        | num c =>
            dsimp only
            by_cases hsc : (if GoNum.gt ls.step (GoNum.finite 0) = true
                then GoNum.le (GoNum.add c ls.step) ls.stop
                else GoNum.ge (GoNum.add c ls.step) ls.stop) = true
            · rw [if_pos hsc, if_pos hsc]
              exact Or.inl ⟨_, rfl, rfl⟩
            · rw [if_neg hsc, if_neg hsc]
              refine Or.inl ⟨_, rfl, ?_⟩
              simp only [projSt, delA_map_proj]
              rfl
        | str s =>
            dsimp only
            exact Or.inr ⟨_, _, _, _, rfl, rfl, rfl⟩

/-! ## Helper lemmas: backend agreement, statements and the run loop -/

mutual

theorem stmt_agree (lines : List ℤ) :
    (s : Stmt) → ∀ (st : IState), dimFree s = true → loopVarsBound st →
      agreeR (ievalStmt lines s st) (cevalStmt lines s (projSt st))
  | .print exprs seps tnl => by
      intro st hdf hinv
      simp only [ievalStmt, cevalStmt, projSt_vars, projSt_arrays, projSt_output]
      by_cases he : exprs.isEmpty = true
      · rw [if_pos he, if_pos he]
        exact Or.inl ⟨_, rfl, rfl⟩
      · rw [if_neg he, if_neg he]
        have hp := printLoop_agree st.vars st.arrays exprs seps st.output
        rcases hi : printLoop (evalExpression st.vars st.arrays) exprs seps st.output with ⟨out, mo⟩
        rcases hc : printLoop (cEvalExpr st.vars st.arrays) exprs seps st.output with ⟨out2, mo2⟩
        rw [hi, hc] at hp
        obtain ⟨hout, hnone⟩ := hp
        dsimp only at hout hnone
        subst hout
        cases mo with
        | some m =>
            cases mo2 with
            | none => simp at hnone
            | some m' =>
                dsimp only
                exact Or.inr ⟨_, _, _, _, rfl, rfl, rfl⟩
        | none =>
            cases mo2 with
            | some m' => simp at hnone
            | none =>
                dsimp only
                exact Or.inl ⟨_, rfl, rfl⟩
  | .letS name value => by
      intro st hdf hinv
      simp only [ievalStmt, cevalStmt, projSt_vars, projSt_arrays]
      rcases evalExpr_agree st.vars st.arrays value with ⟨v, hv, hv'⟩ | ⟨⟨m, hm⟩, ⟨m', hm'⟩⟩
      · rw [hv, hv']
        dsimp only
        exact Or.inl ⟨_, rfl, rfl⟩
      · rw [hm, hm']
        dsimp only
        exact Or.inr ⟨_, _, _, _, rfl, rfl, rfl⟩
  | .ifS cond cons alt => by
      intro st hdf hinv
      cases alt with
      | none =>
          simp only [dimFree, Bool.and_eq_true, and_true] at hdf
          have hdc := hdf
          simp only [ievalStmt, cevalStmt, projSt_vars, projSt_arrays]
          rcases evalExpr_agree st.vars st.arrays cond with ⟨v, hv, hv'⟩ | ⟨⟨m, hm⟩, ⟨m', hm'⟩⟩
          · rw [hv, hv']
            dsimp only
            rw [truthy_eq]
            by_cases ht : isTruthy v = true
            · rw [if_pos ht, if_pos ht]
              exact stmt_agree lines cons st hdc hinv
            · rw [if_neg ht, if_neg ht]
              exact Or.inl ⟨_, rfl, rfl⟩
          · rw [hm, hm']
            dsimp only
            exact Or.inr ⟨_, _, _, _, rfl, rfl, rfl⟩
      | some a =>
          simp only [dimFree, Bool.and_eq_true] at hdf
          obtain ⟨hdc, hda⟩ := hdf
          simp only [ievalStmt, cevalStmt, projSt_vars, projSt_arrays]
          rcases evalExpr_agree st.vars st.arrays cond with ⟨v, hv, hv'⟩ | ⟨⟨m, hm⟩, ⟨m', hm'⟩⟩
          · rw [hv, hv']
            dsimp only
            rw [truthy_eq]
            by_cases ht : isTruthy v = true
            · rw [if_pos ht, if_pos ht]
              exact stmt_agree lines cons st hdc hinv
            · rw [if_neg ht, if_neg ht]
              exact stmt_agree lines a st hda hinv
          · rw [hm, hm']
            dsimp only
            exact Or.inr ⟨_, _, _, _, rfl, rfl, rfl⟩
  | .goto lineExpr => by
      intro st hdf hinv
      simp only [ievalStmt, cevalStmt, projSt_vars, projSt_arrays, findLineIdx, buildLineIndex]
      rcases evalExpr_agree st.vars st.arrays lineExpr with ⟨v, hv, hv'⟩ | ⟨⟨m, hm⟩, ⟨m', hm'⟩⟩
      · rw [hv, hv']
        cases v with
        | num n =>
            dsimp only
            rw [buildLineIndex_eq]
            cases hf : findLineIdxFrom 0 lines (GoNum.truncInt n) with
            | none =>
                dsimp only
                exact Or.inr ⟨_, _, _, _, rfl, rfl, rfl⟩
            | some i =>
                dsimp only
                exact Or.inl ⟨_, rfl, rfl⟩
        | str s =>
            dsimp only
            exact Or.inr ⟨_, _, _, _, rfl, rfl, rfl⟩
      · rw [hm, hm']
        dsimp only
        exact Or.inr ⟨_, _, _, _, rfl, rfl, rfl⟩
  | .gosub lineExpr => by
      intro st hdf hinv
      simp only [ievalStmt, cevalStmt, projSt_vars, projSt_arrays, projSt_callStack,
        projSt_pc, findLineIdx, buildLineIndex]
      rcases evalExpr_agree st.vars st.arrays lineExpr with ⟨v, hv, hv'⟩ | ⟨⟨m, hm⟩, ⟨m', hm'⟩⟩
      · rw [hv, hv']
        cases v with
        | num n =>
            dsimp only
            rw [buildLineIndex_eq]
            cases hf : findLineIdxFrom 0 lines (GoNum.truncInt n) with
            | none =>
                dsimp only
                exact Or.inr ⟨_, _, _, _, rfl, rfl, rfl⟩
            | some i =>
                dsimp only
                exact Or.inl ⟨_, rfl, rfl⟩
        | str s =>
            dsimp only
            exact Or.inr ⟨_, _, _, _, rfl, rfl, rfl⟩
      · rw [hm, hm']
        dsimp only
        exact Or.inr ⟨_, _, _, _, rfl, rfl, rfl⟩
  | .returnS => by
      intro st hdf hinv
      simp only [ievalStmt, cevalStmt, projSt_callStack]
      cases hcs : st.callStack.getLast? with
      | none =>
          dsimp only
          exact Or.inr ⟨_, _, _, _, rfl, rfl, rfl⟩
      | some top =>
          dsimp only
          exact Or.inl ⟨_, rfl, rfl⟩
  | .forS v startE stopE stepE => by
      intro st hdf hinv
      simp only [ievalStmt, cevalStmt, projSt_vars, projSt_arrays]
      rcases evalExpr_agree st.vars st.arrays startE with ⟨sv, hs, hs'⟩ | ⟨⟨m, hm⟩, ⟨m', hm'⟩⟩
      · rw [hs, hs']
        rcases evalExpr_agree st.vars st.arrays stopE with ⟨ev, he1, he1'⟩ | ⟨⟨m, hm⟩, ⟨m', hm'⟩⟩
        · rw [he1, he1']
          rcases evalExpr_agree st.vars st.arrays stepE with ⟨pv, hp, hp'⟩ | ⟨⟨m, hm⟩, ⟨m', hm'⟩⟩
          · rw [hp, hp']
            cases sv with
            | num sn =>
                dsimp only
                cases ev with
                | num en =>
                    dsimp only
                    cases pv with
                    | num pn =>
                        dsimp only
                        refine Or.inl ⟨_, rfl, ?_⟩
                        simp only [projSt, setA_map_proj]
                        rfl
                    | str s2 =>
                        dsimp only
                        exact Or.inr ⟨_, _, _, _, rfl, rfl, rfl⟩
                | str s2 =>
                    dsimp only
                    exact Or.inr ⟨_, _, _, _, rfl, rfl, rfl⟩
            | str s2 =>
                dsimp only
                exact Or.inr ⟨_, _, _, _, rfl, rfl, rfl⟩
          · rw [hm, hm']
            cases sv with
            | num sn =>
                dsimp only
                cases ev with
                | num en =>
                    dsimp only
                    exact Or.inr ⟨_, _, _, _, rfl, rfl, rfl⟩
                | str s2 =>
                    dsimp only
                    exact Or.inr ⟨_, _, _, _, rfl, rfl, rfl⟩
            | str s2 =>
                dsimp only
                exact Or.inr ⟨_, _, _, _, rfl, rfl, rfl⟩
        · rw [hm, hm']
          cases sv with
          | num sn =>
              dsimp only
              exact Or.inr ⟨_, _, _, _, rfl, rfl, rfl⟩
          | str s2 =>
              dsimp only
              exact Or.inr ⟨_, _, _, _, rfl, rfl, rfl⟩
      · rw [hm, hm']
        dsimp only
        exact Or.inr ⟨_, _, _, _, rfl, rfl, rfl⟩
  | .next v => by
      intro st hdf hinv
      simp only [ievalStmt, cevalStmt]
      exact next_agree v st hinv
  | .inputS prompt targets => by
      intro st hdf hinv
      simp only [ievalStmt, cevalStmt, projSt_vars, projSt_output, projSt_inputLines]
      cases hil : st.inputLines with
      | nil =>
          dsimp only
          exact Or.inr ⟨_, _, _, _, rfl, rfl, rfl⟩
      | cons line rest =>
          dsimp only
          exact Or.inl ⟨_, rfl, rfl⟩
  | .endS => by
      intro st hdf hinv
      simp only [ievalStmt, cevalStmt]
      exact Or.inl ⟨_, rfl, rfl⟩
  | .rem c => by
      intro st hdf hinv
      simp only [ievalStmt, cevalStmt]
      exact Or.inl ⟨st, rfl, rfl⟩
  | .dim name size => by
      intro st hdf hinv
      simp [dimFree] at hdf
  | .exprS e => by
      intro st hdf hinv
      simp only [ievalStmt, cevalStmt, projSt_vars, projSt_arrays]
      rcases evalExpr_agree st.vars st.arrays e with ⟨v, hv, hv'⟩ | ⟨⟨m, hm⟩, ⟨m', hm'⟩⟩
      · rw [hv, hv']
        dsimp only
        exact Or.inl ⟨st, rfl, rfl⟩
      · rw [hm, hm']
        dsimp only
        exact Or.inr ⟨_, _, _, _, rfl, rfl, rfl⟩
  | .seqS stmts => by
      intro st hdf hinv
      simp only [ievalStmt, cevalStmt]
      exact stmtList_agree lines stmts st (by simpa [dimFree] using hdf) hinv
  | .nilS => by
      intro st hdf hinv
      simp only [ievalStmt, cevalStmt]
      exact Or.inr ⟨_, _, _, _, rfl, rfl, rfl⟩

theorem stmtList_agree (lines : List ℤ) :
    (ss : List Stmt) → ∀ (st : IState), dimFreeList ss = true → loopVarsBound st →
      agreeR (ievalStmtList lines ss st) (cevalStmtList lines ss (projSt st))
  | [] => by
      intro st hdf hinv
      exact Or.inl ⟨st, rfl, rfl⟩
  | s :: rest => by
      intro st hdf hinv
      simp only [dimFreeList, Bool.and_eq_true] at hdf
      obtain ⟨hd1, hd2⟩ := hdf
      simp only [ievalStmtList, cevalStmtList]
      have hag := stmt_agree lines s st hd1 hinv
      unfold agreeR at hag
      rcases hag with ⟨ist, hi, hc⟩ | ⟨ist, m, cst, m', hi, hc, ho⟩
      · rw [hi, hc]
        dsimp only
        exact stmtList_agree lines rest ist hd2 (ieval_inv lines s st ist hinv hi)
      · rw [hi, hc]
        dsimp only
        exact Or.inr ⟨_, _, _, _, rfl, rfl, ho⟩

end

theorem runLoop_agree (prog : List (ℤ × Stmt)) (lines : List ℤ)
    (hdf : (prog.all fun p => dimFree p.2) = true) :
    ∀ (fuel : ℕ) (st : IState), loopVarsBound st →
      agreeRun (irunLoop prog lines fuel st) (crunLoop prog lines fuel (projSt st)) := by
  intro fuel
  induction fuel with
  | zero =>
      intro st hinv
      exact Or.inr (Or.inr ⟨st, rfl, rfl⟩)
  | succ n ih =>
      intro st hinv
      simp only [irunLoop, crunLoop, projSt_pc, projSt_halted]
      by_cases hc : st.pc < (lines.length : ℤ) ∧ st.halted = false
      · rw [if_pos hc, if_pos hc]
        cases hg : intGet lines st.pc with
        | none => exact Or.inr (Or.inl ⟨_, _, _, _, rfl, rfl, rfl⟩)
        | some lineNum =>
            dsimp only
            cases hl : lookupA prog lineNum with
            | none => exact Or.inr (Or.inl ⟨_, _, _, _, rfl, rfl, rfl⟩)
            | some stmt =>
                dsimp only
                have hdfs : dimFree stmt = true := by
                  have hmem := lookupA_mem _ _ _ hl
                  have h2 := List.all_eq_true.mp hdf _ hmem
                  simpa using h2
                have hag := stmt_agree lines stmt st hdfs hinv
                unfold agreeR at hag
                rcases hag with ⟨ist, hi, hc2⟩ | ⟨ist, m, cst, m', hi, hc2, ho⟩
                · rw [hi, hc2]
                  dsimp only
                  have hinv' := ieval_inv lines stmt st ist hinv hi
                  exact ih { ist with pc := ist.pc + 1 } (fun p hp => hinv' p hp)
                · rw [hi, hc2]
                  dsimp only
                  exact Or.inr (Or.inl ⟨_, _, _, _, rfl, rfl, ho⟩)
      · rw [if_neg hc, if_neg hc]
        exact Or.inl ⟨st, rfl, rfl⟩

/-! ## Claims -/

/-- C8: for all Number operands x and y, `x MOD y` never errors (both
backends return the floating-point remainder, which is NaN for a zero
divisor), while `/` fails with "division by zero" exactly when the divisor
is 0 (NaN is not 0 under Go's float `==`). -/
theorem c8_mod_total_div_partial :
    ∀ x y : GoNum,
      evalInfixOp "MOD" (.num x) (.num y) = .ok (.num (GoNum.goMod x y)) ∧
      applyInfixOp "MOD" (.num x) (.num y) = .ok (.num (GoNum.goMod x y)) ∧
      GoNum.goMod x (GoNum.finite 0) = GoNum.nan ∧
      (evalInfixOp "/" (.num x) (.num y) = .error "division by zero" ↔ GoNum.isZero y = true) ∧
      (applyInfixOp "/" (.num x) (.num y) = .error "division by zero" ↔ GoNum.isZero y = true) := by
  intro x y
  refine ⟨?_, ?_, ?_, ?_, ?_⟩
  · simp [evalInfixOp]
  · simp [applyInfixOp]
  · cases x <;> rfl
  · unfold evalInfixOp
    cases h : GoNum.isZero y <;> simp [h]
  · unfold applyInfixOp
    cases h : GoNum.isZero y <;> simp [h]

/-- C7: reading an unset scalar evaluates to Number 0 and an identifier
read never errors; reading an element of an undeclared array name fails
with an "array not defined" error; for a declared array an index with no
stored value reads as Number 0; and a non-Number index expression is an
error. -/
theorem c7_identifier_and_array_reads :
    ∀ (vars : List (String × Value)) (arrays : List (String × List (ℤ × Value)))
      (name : String) (idx : Expr),
      (lookupA vars name = none →
        evalExpression vars arrays (.ident name) = .ok (.num (GoNum.finite 0))) ∧
      (∃ v, evalExpression vars arrays (.ident name) = .ok v) ∧
      (lookupA arrays name = none →
        evalExpression vars arrays (.arrayAcc name idx) = .error ("array " ++ name ++ " not defined")) ∧
      (∀ arr n, lookupA arrays name = some arr →
        evalExpression vars arrays idx = .ok (.num n) →
        lookupA arr (GoNum.truncInt n) = none →
        evalExpression vars arrays (.arrayAcc name idx) = .ok (.num (GoNum.finite 0))) ∧
      (∀ arr s, lookupA arrays name = some arr →
        evalExpression vars arrays idx = .ok (.str s) →
        evalExpression vars arrays (.arrayAcc name idx) = .error "array index must be a number") := by
  intro vars arrays name idx
  refine ⟨?_, ?_, ?_, ?_, ?_⟩
  · intro h
    simp [evalExpression, h]
  · cases h : lookupA vars name with
    | none =>
        refine ⟨.num (GoNum.finite 0), ?_⟩
        simp [evalExpression, h]
    | some v =>
        refine ⟨v, ?_⟩
        simp [evalExpression, h]
  · intro h
    simp [evalExpression, h]
  · intro arr n h1 h2 h3
    simp [evalExpression, h1, h2, h3]
  · intro arr s h1 h2
    simp [evalExpression, h1, h2]

/-- Witness for C7: concrete reads (unset scalar `A`; undeclared array `A`;
declared array `B` at an unset index; string index into `B`). -/
theorem c7_identifier_and_array_reads_witness :
    evalExpression [] [] (.ident "A") = .ok (.num (GoNum.finite 0)) ∧
    evalExpression [] [] (.arrayAcc "A" (.numberLit (.finite 0))) = .error "array A not defined" ∧
    evalExpression [] [("B", [])] (.arrayAcc "B" (.numberLit (.finite 0))) = .ok (.num (GoNum.finite 0)) ∧
    evalExpression [] [("B", [])] (.arrayAcc "B" (.stringLit "x")) = .error "array index must be a number" :=
  ⟨(c7_identifier_and_array_reads [] [] "A" (.numberLit (.finite 0))).1 (by decide),
   (c7_identifier_and_array_reads [] [] "A" (.numberLit (.finite 0))).2.2.1 (by decide),
   (c7_identifier_and_array_reads [] [("B", [])] "B" (.numberLit (.finite 0))).2.2.2.1
     [] (.finite 0) (by decide) (by rfl) (by decide),
   (c7_identifier_and_array_reads [] [("B", [])] "B" (.stringLit "x")).2.2.2.2
     [] "x" (by decide) (by rfl)⟩

/-- C6: in both backends RETURN fails with "RETURN without GOSUB" exactly
when the call stack is empty, and otherwise pops the top saved pc index and
jumps there; in the run loop the subsequent `pc++` resumes one position
past the GOSUB site. -/
theorem c6_return_semantics :
    ∀ (lines : List ℤ) (st : IState) (cst : CState),
      (st.callStack = [] → ievalStmt lines .returnS st = .err st "RETURN without GOSUB") ∧
      (∀ cs i, st.callStack = cs ++ [i] →
        ievalStmt lines .returnS st = .ok { st with pc := i, callStack := cs }) ∧
      (cst.callStack = [] → cevalStmt lines .returnS cst = .err cst "RETURN without GOSUB") ∧
      (∀ cs i, cst.callStack = cs ++ [i] →
        cevalStmt lines .returnS cst = .ok { cst with pc := i, callStack := cs }) ∧
      (∀ (prog : List (ℤ × Stmt)) fuel lineNum cs i,
        st.pc < (lines.length : ℤ) → st.halted = false →
        intGet lines st.pc = some lineNum →
        lookupA prog lineNum = some Stmt.returnS →
        st.callStack = cs ++ [i] →
        irunLoop prog lines (fuel + 1) st =
          irunLoop prog lines fuel { st with pc := i + 1, callStack := cs }) := by
  intro lines st cst
  refine ⟨?_, ?_, ?_, ?_, ?_⟩
  · intro h; simp [ievalStmt, h]
  · intro cs i h
    simp [ievalStmt, h, List.getLast?_concat, List.dropLast_concat]
  · intro h; simp [cevalStmt, h]
  · intro cs i h
    simp [cevalStmt, h, List.getLast?_concat, List.dropLast_concat]
  · intro prog fuel lineNum cs i h1 h2 h3 h4 h5
    simp [irunLoop, h1, h2, h3, h4, ievalStmt, h5,
      List.getLast?_concat, List.dropLast_concat]

/-- Witness for C6: the GOSUB/RETURN example program prints `X` and halts
cleanly, and a lone RETURN fails; built by applying the RETURN semantics at
concrete states. -/
theorem c6_return_semantics_witness :
    ievalStmt [10] Stmt.returnS (initState ForLoopState []) =
      .err (initState ForLoopState []) "RETURN without GOSUB" ∧
    ievalStmt [10] Stmt.returnS { initState ForLoopState [] with callStack := [7] } =
      .ok { initState ForLoopState [] with pc := 7, callStack := [] } ∧
    cevalStmt [10] Stmt.returnS { initState CForLoopState [] with callStack := [3, 9] } =
      .ok { initState CForLoopState [] with pc := 9, callStack := [3] } :=
  ⟨(c6_return_semantics [10] (initState ForLoopState []) (initState CForLoopState [])).1 rfl,
   (c6_return_semantics [10] { initState ForLoopState [] with callStack := [7] }
      (initState CForLoopState [])).2.1 [] 7 rfl,
   (c6_return_semantics [10] (initState ForLoopState [])
      { initState CForLoopState [] with callStack := [3, 9] }).2.2.2.1 [3] 9 rfl⟩

/-- C4: for an open loop, NEXT reads the loop variable's current value
(failing when it is not a Number), computes `new = current + step`, and
continues iff `new ≤ end` when `step > 0` or `new ≥ end` when `step ≤ 0`;
on continue it stores `new` and jumps the pc to the loop's resume index, on
stop it removes the loop-state entry — and `FOR I = 5 TO 1 STEP -1` with a
matching `NEXT I` iterates exactly 5 times with I taking 5,4,3,2,1 (shown
by the printed output), in both backends. -/
theorem c4_next_semantics :
    (∀ (st : IState) (v vf : String) (eq2 sq cq : ℚ) (sl : ℤ),
      v ≠ "" →
      lookupA st.forLoops v = some ⟨vf, .finite eq2, .finite sq, sl⟩ →
      (lookupA st.vars v = some (.num (.finite cq)) →
        ievalNext (some v) st =
          if (if 0 < sq then cq + sq ≤ eq2 else eq2 ≤ cq + sq)
          then .ok { st with vars := setA st.vars v (.num (.finite (cq + sq))), pc := sl }
          else .ok { st with forLoops := delA st.forLoops v }) ∧
      (∀ s, lookupA st.vars v = some (.str s) →
        ievalNext (some v) st = .err st "loop variable must be a number")) ∧
    outputOf (irun forCountdownProg [] 100) = "5\n4\n3\n2\n1\n" ∧
    outcomeOf (irun forCountdownProg [] 100) = .success ∧
    outputOf (crun forCountdownProg [] 100) = "5\n4\n3\n2\n1\n" ∧
    outcomeOf (crun forCountdownProg [] 100) = .success := by
  refine ⟨?_, by decide, by decide, by decide, by decide⟩
  intro st v vf eq2 sq cq sl hv hloop
  constructor
  · intro hvar
    simp only [ievalNext, hv, hloop, hvar, if_neg hv]
    simp [GoNum.gt, GoNum.le, GoNum.ge, GoNum.add]
  · intro s hvar
    simp [ievalNext, hv, hloop, hvar]

/-- Witness for C4: one concrete NEXT step (I = 5, step −1, end 1 jumps
back with I = 4). -/
theorem c4_next_semantics_witness :
    ievalNext (some "I")
      { initState ForLoopState [] with
        vars := [("I", .num (.finite 5))],
        forLoops := [("I", ⟨"I", .finite 1, .finite (-1), 0⟩)], pc := 2 } =
      .ok { initState ForLoopState [] with
            vars := [("I", .num (.finite 4))],
            forLoops := [("I", ⟨"I", .finite 1, .finite (-1), 0⟩)], pc := 0 } := by
  have h := (c4_next_semantics.1
    { initState ForLoopState [] with
      vars := [("I", .num (.finite 5))],
      forLoops := [("I", ⟨"I", .finite 1, .finite (-1), 0⟩)], pc := 2 }
    "I" "I" 1 (-1) 5 0 (by decide) (by decide)).1 (by decide)
  rw [h]
  decide

/-- Counterexample for C1: for the valid one-line program `10 DIM A("x")`
the interpreter run fails (DIM evaluates the size and rejects a non-Number)
while the compiled program succeeds (its DIM code never evaluates the
size), so the claimed identical success/failure outcome does not hold. -/
theorem c1_counterexample :
    outcomeOf (irun dimStrProg [] 10) = .failure ∧
    outcomeOf (crun dimStrProg [] 10) = .success ∧
    outputOf (irun dimStrProg [] 10) = outputOf (crun dimStrProg [] 10) :=
  ⟨by decide, by decide, by decide⟩

/-- C1 (amended): for every valid Program **containing no DIM statement**
and every input stream, the compiled program produces byte-identical
standard output and an identical success/failure outcome to the
interpreter, at every fuel bound (the unspecified Go map iteration order
picking the loop for a variable-less NEXT is modelled identically —
first entry — in both backends). -/
theorem c1_backend_equivalence_amended :
    ∀ (prog : List (ℤ × Stmt)) (input : List String) (fuel : ℕ),
      (prog.all fun p => stmtWF p.2) = true →
      (prog.all fun p => dimFree p.2) = true →
      outputOf (irun prog input fuel) = outputOf (crun prog input fuel) ∧
      outcomeOf (irun prog input fuel) = outcomeOf (crun prog input fuel) := by
  intro prog input fuel hwf hdf
  have h := runLoop_agree prog (programLines prog) hdf fuel (initState ForLoopState input)
      (fun p hp => by simp [initState] at hp)
  have hinit : projSt (initState ForLoopState input) = initState CForLoopState input := rfl
  rw [hinit] at h
  unfold agreeRun at h
  unfold irun crun
  rcases h with ⟨ist, hi, hc⟩ | ⟨ist, m, cst, m', hi, hc, ho⟩ | ⟨ist, hi, hc⟩
  · rw [hi, hc]; exact ⟨rfl, rfl⟩
  · rw [hi, hc]; exact ⟨ho.symm, rfl⟩
  · rw [hi, hc]; exact ⟨rfl, rfl⟩

/-- Witness for C1 (amended): the DIM-free GOSUB example program runs
identically under both backends. -/
theorem c1_backend_equivalence_amended_witness :
    (gosubProg.all fun p => stmtWF p.2) = true ∧
    (gosubProg.all fun p => dimFree p.2) = true ∧
    (outputOf (irun gosubProg [] 50) = outputOf (crun gosubProg [] 50) ∧
     outcomeOf (irun gosubProg [] 50) = outcomeOf (crun gosubProg [] 50)) :=
  ⟨by decide, by decide,
   c1_backend_equivalence_amended gosubProg [] 50 (by decide) (by decide)⟩

/-- C10: every interpreter state reachable at the top of the run loop
satisfies the loop-variable invariant (every name in the loop-state table is
bound in the scalar environment: FOR sets the variable before recording its
loop state, and no statement removes a scalar binding — the second conjunct
is the preservation of the invariant by every successfully executed
statement); and under the invariant NEXT can never produce the
"loop variable ... not found" error, so that branch is unreachable. -/
theorem c10_loop_variable_invariant :
    (∀ (prog : List (ℤ × Stmt)) (lines : List ℤ) (st : IState),
      ReachableI prog lines st → loopVarsBound st) ∧
    (∀ (lines : List ℤ) (s : Stmt) (st st' : IState),
      loopVarsBound st → ievalStmt lines s st = .ok st' → loopVarsBound st') ∧
    (∀ (v : Option String) (st : IState) (st' : IState) (n : String),
      loopVarsBound st →
      ievalNext v st ≠ .err st' ("loop variable " ++ n ++ " not found")) := by
  refine ⟨?_, ?_, ?_⟩
  · intro prog lines st hr
    induction hr with
    | init input =>
        intro p hp
        simp [initState] at hp
    | step st st' lineNum stmt hr hpc hh hget hlook heval ih =>
        have h2 := ieval_inv lines stmt st st' ih heval
        exact fun p hp => h2 p hp
  · exact fun lines s st st' => ieval_inv lines s st st'
  · intro v st st' n hinv heq
    simp only [ievalNext] at heq
    split at heq
    · injection heq with h1 h2
      exact ne_loopVarNotFound_of_head _ (by decide) n h2
    · split at heq
      · injection heq with h1 h2
        exact ne_loopVarNotFound_of_head _ (by decide) n h2
      · next ls hls =>
          split at heq
          · next hvars =>
              have hsome := hinv _ (lookupA_mem _ _ _ hls)
              rw [hvars] at hsome
              exact absurd hsome (by decide)
          · split at heq
            · repeat' split at heq
              all_goals cases heq
            · injection heq with h1 h2
              exact mustBeNumber_ne_loopVarNotFound n h2

/-- Witness for C10: the fresh state satisfies the invariant (via the
reachability of the initial state), and a concrete NEXT on it cannot fail
with the loop-variable-not-found error. -/
theorem c10_loop_variable_invariant_witness :
    loopVarsBound (initState ForLoopState []) ∧
    ievalNext (some "I") (initState ForLoopState []) ≠
      .err (initState ForLoopState []) ("loop variable " ++ "I" ++ " not found") :=
  ⟨c10_loop_variable_invariant.1 [] [] _ (.init []),
   c10_loop_variable_invariant.2.2 (some "I") (initState ForLoopState [])
     (initState ForLoopState []) "I" (c10_loop_variable_invariant.1 [] [] _ (.init []))⟩

/-- Counterexample for C2: the claim demands that *both* backends fail when
the DIM size expression is not a Number, but the compiled program emitted
for `10 DIM A("x")` succeeds (its DIM code never evaluates the size), while
the interpreter fails. -/
theorem c2_counterexample :
    outcomeOf (irun dimStrProg [] 10) = .failure ∧
    outcomeOf (crun dimStrProg [] 10) = .success :=
  ⟨by decide, by decide⟩

/-- C2 (amended): in the evaluator backend, DIM evaluates the size
expression, fails when its value is not a Number, and binds a fresh empty
array discarding any prior one; in the compiler backend, the emitted DIM
code does not evaluate the size expression at all and creates an empty
array only when the name is unbound, keeping any existing array. -/
theorem c2_dim_semantics_amended :
    ∀ (lines : List ℤ) (st : IState) (cst : CState) (name : String) (size : Expr),
      (∀ n, evalExpression st.vars st.arrays size = .ok (.num n) →
        ievalStmt lines (.dim name size) st =
          .ok { st with arrays := setA st.arrays name [] }) ∧
      (∀ s, evalExpression st.vars st.arrays size = .ok (.str s) →
        ievalStmt lines (.dim name size) st = .err st "DIM size must be a number") ∧
      (∀ m, evalExpression st.vars st.arrays size = .error m →
        ievalStmt lines (.dim name size) st = .err st m) ∧
      (cevalStmt lines (.dim name size) cst =
        .ok { cst with arrays := ensureArray cst.arrays name }) ∧
      (∀ arr, lookupA cst.arrays name = some arr → ensureArray cst.arrays name = cst.arrays) := by
  intro lines st cst name size
  refine ⟨?_, ?_, ?_, rfl, ?_⟩
  · intro n h; simp [ievalStmt, h]
  · intro s h; simp [ievalStmt, h]
  · intro m h; simp [ievalStmt, h]
  · intro arr h; simp [ensureArray, h]

/-- Witness for C2 (amended): concrete DIM executions in both backends. -/
theorem c2_dim_semantics_amended_witness :
    ievalStmt [10] (.dim "A" (.numberLit (.finite 3))) (initState ForLoopState []) =
      .ok { initState ForLoopState [] with arrays := [("A", [])] } ∧
    ievalStmt [10] (.dim "A" (.stringLit "x")) (initState ForLoopState []) =
      .err (initState ForLoopState []) "DIM size must be a number" ∧
    cevalStmt [10] (.dim "A" (.stringLit "x")) (initState CForLoopState []) =
      .ok { initState CForLoopState [] with arrays := [("A", [])] } :=
  ⟨(c2_dim_semantics_amended [10] (initState ForLoopState []) (initState CForLoopState [])
      "A" (.numberLit (.finite 3))).1 (.finite 3) (by rfl),
   (c2_dim_semantics_amended [10] (initState ForLoopState []) (initState CForLoopState [])
      "A" (.stringLit "x")).2.1 "x" (by rfl),
   (c2_dim_semantics_amended [10] (initState ForLoopState []) (initState CForLoopState [])
      "A" (.stringLit "x")).2.2.2.1⟩


/-! ## Lexer lemmas (C5) -/

theorem readWhileAux_all (p : Char → Bool) :
    ∀ (ch : Char) (line : ℕ) (rest : List Char),
      ((readWhileAux p ch line rest).1.data.all p) = true := by
  intro ch line rest
  induction rest generalizing ch line with
  | nil => by_cases h : p ch <;> simp [readWhileAux, h]
  | cons c cs ih => by_cases h : p ch <;> simp [readWhileAux, h, ih]

theorem readWhileAux_head (p : Char → Bool) (ch : Char) (line : ℕ) (rest : List Char)
    (h : p ch = true) :
    (readWhileAux p ch line rest).1.data ≠ [] ∧
    (readWhileAux p ch line rest).1.data.headD '0' = ch := by
  cases rest <;> simp [readWhileAux, h]

theorem lookupIdent_ne_number (s : String) : lookupIdent s ≠ "NUMBER" := by
  unfold lookupIdent
  split
  · next h =>
      intro he
      subst he
      exact absurd h (by decide)
  · decide

theorem nextToken_number_literal (l : Lexer)
    (h : (nextToken l).1.ttype = "NUMBER") :
    isDigitChar (skipWhitespace l).ch = true ∧
    (nextToken l).1.literal =
      (readWhileAux (fun c => isDigitChar c || c = '.') (skipWhitespace l).ch
        (skipWhitespace l).line (skipWhitespace l).rest).1 := by
  by_cases h1 : (skipWhitespace l).ch = '='
  · by_cases hp : peekChar (skipWhitespace l) = '='
    · simp [nextToken, h1, hp] at h
    · simp [nextToken, h1, hp] at h
  by_cases h2 : (skipWhitespace l).ch = '+'
  · simp [nextToken, h1, h2] at h
  by_cases h3 : (skipWhitespace l).ch = '-'
  · simp [nextToken, h1, h2, h3] at h
  by_cases h4 : (skipWhitespace l).ch = '*'
  · simp [nextToken, h1, h2, h3, h4] at h
  by_cases h5 : (skipWhitespace l).ch = '/'
  · simp [nextToken, h1, h2, h3, h4, h5] at h
  by_cases h6 : (skipWhitespace l).ch = '<'
  · by_cases hp : peekChar (skipWhitespace l) = '='
    · simp [nextToken, h1, h2, h3, h4, h5, h6, hp] at h
    · by_cases hp2 : peekChar (skipWhitespace l) = '>'
      · simp [nextToken, h1, h2, h3, h4, h5, h6, hp, hp2] at h
      · simp [nextToken, h1, h2, h3, h4, h5, h6, hp, hp2] at h
  by_cases h7 : (skipWhitespace l).ch = '>'
  · by_cases hp : peekChar (skipWhitespace l) = '='
    · simp [nextToken, h1, h2, h3, h4, h5, h6, h7, hp] at h
    · simp [nextToken, h1, h2, h3, h4, h5, h6, h7, hp] at h
  by_cases h8 : (skipWhitespace l).ch = '('
  · simp [nextToken, h1, h2, h3, h4, h5, h6, h7, h8] at h
  by_cases h9 : (skipWhitespace l).ch = ')'
  · simp [nextToken, h1, h2, h3, h4, h5, h6, h7, h8, h9] at h
  by_cases h10 : (skipWhitespace l).ch = ','
  · simp [nextToken, h1, h2, h3, h4, h5, h6, h7, h8, h9, h10] at h
  by_cases h11 : (skipWhitespace l).ch = ':'
  · simp [nextToken, h1, h2, h3, h4, h5, h6, h7, h8, h9, h10, h11] at h
  by_cases h12 : (skipWhitespace l).ch = ';'
  · simp [nextToken, h1, h2, h3, h4, h5, h6, h7, h8, h9, h10, h11, h12] at h
  by_cases h13 : (skipWhitespace l).ch = '"'
  · simp [nextToken, h1, h2, h3, h4, h5, h6, h7, h8, h9, h10, h11, h12, h13] at h
  by_cases h14 : (skipWhitespace l).ch = '\n'
  · simp [nextToken, h1, h2, h3, h4, h5, h6, h7, h8, h9, h10, h11, h12, h13, h14] at h
  by_cases h15 : (skipWhitespace l).ch = '\x00'
  · simp [nextToken, h1, h2, h3, h4, h5, h6, h7, h8, h9, h10, h11, h12, h13, h14, h15] at h
  by_cases h16 : isLetterChar (skipWhitespace l).ch = true
  · simp [nextToken, readWhile, h1, h2, h3, h4, h5, h6, h7, h8, h9, h10, h11, h12, h13, h14,
      h15, h16] at h
    exact absurd h (lookupIdent_ne_number _)
  by_cases h17 : isDigitChar (skipWhitespace l).ch = true
  · refine ⟨h17, ?_⟩
    simp [nextToken, readWhile, h1, h2, h3, h4, h5, h6, h7, h8, h9, h10, h11, h12, h13, h14,
      h15, h16, h17]
  · simp [nextToken, h1, h2, h3, h4, h5, h6, h7, h8, h9, h10, h11, h12, h13, h14, h15, h16,
      h17] at h

/-- C5, corrected. Amended property: every NUMBER token produced by the lexer
is a nonempty character sequence that starts with a digit and consists only of
digits and decimal points — hence it carries no exponent marker and no embedded
sign, and a `-` is always lexed as a separate MINUS token — but it may contain
ANY number of decimal points, not at most one: `readNumber` keeps consuming
while `isDigit(ch) || ch == '.'`, so a literal such as `1.2.3` is one NUMBER
token (the counterexample refutes the frozen claim's one-decimal-point bound). -/
theorem c5_number_token_shape_amended :
    (∀ l : Lexer, (nextToken l).1.ttype = "NUMBER" →
        numberShape (nextToken l).1.literal ∧
        ∀ c ∈ (nextToken l).1.literal.data, c ≠ '-' ∧ c ≠ '+' ∧ c ≠ 'e' ∧ c ≠ 'E') ∧
    (∀ l : Lexer, (skipWhitespace l).ch = '-' →
        nextToken l = (⟨"-", "-", (skipWhitespace l).line⟩, readChar (skipWhitespace l))) := by
  constructor
  · intro l h
    obtain ⟨hd, hlit⟩ := nextToken_number_literal l h
    have hall : ((nextToken l).1.literal.data.all
        (fun c => isDigitChar c || c = '.')) = true := by
      rw [hlit]
      exact readWhileAux_all _ _ _ _
    have hpch : (fun c => isDigitChar c || c = '.') (skipWhitespace l).ch = true := by
      simp [hd]
    have hh := readWhileAux_head (fun c => isDigitChar c || c = '.')
      (skipWhitespace l).ch (skipWhitespace l).line (skipWhitespace l).rest hpch
    refine ⟨⟨?_, ?_, hall⟩, ?_⟩
    · rw [hlit]; exact hh.1
    · rw [hlit, hh.2]; exact hd
    · intro c hc
      have hpc := List.all_eq_true.mp hall c hc
      refine ⟨?_, ?_, ?_, ?_⟩ <;> rintro rfl <;> simp [isDigitChar] at hpc
  · intro l h
    simp [nextToken, h]

/-- C5 counterexample: the input `1.2.3` lexes as a single NUMBER token whose
literal `1.2.3` contains two decimal points, contradicting the claim that a
NUMBER token contains at most one decimal point. -/
theorem c5_counterexample :
    (nextToken (newLexer "1.2.3")).1.ttype = "NUMBER" ∧
    (nextToken (newLexer "1.2.3")).1.literal = "1.2.3" ∧
    (nextToken (newLexer "1.2.3")).1.literal.data.count '.' = 2 :=
  ⟨by decide, by decide, by decide⟩

/-- Witness for C5: the amended theorem applied to the concrete inputs
`12.5` (a NUMBER token) and ` -7` (a MINUS token then a NUMBER token). -/
theorem c5_number_token_shape_amended_witness :
    numberShape (nextToken (newLexer "12.5")).1.literal ∧
    nextToken (newLexer " -7") =
      (⟨"-", "-", (skipWhitespace (newLexer " -7")).line⟩,
        readChar (skipWhitespace (newLexer " -7"))) :=
  ⟨(c5_number_token_shape_amended.1 (newLexer "12.5") (by decide)).1,
   c5_number_token_shape_amended.2 (newLexer " -7") (by decide)⟩

/-- C3: parsing `IF c THEN a: b ELSE c2` assigns both colon-chained
statements to the consequence and only the ELSE statement to the
alternative: the program `10 IF 1 THEN PRINT "Y": PRINT "Z" ELSE
PRINT "N"` parses without errors to a single line-10 IF statement whose
consequence is the two-PRINT sequence and whose alternative is the lone
PRINT "N", and interpreting that parse prints `Y\nZ\n` and succeeds. -/
theorem c3_if_colon_grouping :
    parseProgramFromString 100 ifColonSrc = some ([(10, ifColonStmt)], []) ∧
    outputOf (irun [((10 : ℤ), ifColonStmt)] [] 100) = "Y\nZ\n" ∧
    outcomeOf (irun [((10 : ℤ), ifColonStmt)] [] 100) = Outcome.success :=
  ⟨by rfl, by rfl, by rfl⟩


/-! ## Sortedness of `programLines` (C9) -/

theorem insertSorted_perm (x : ℤ) : ∀ l : List ℤ, List.Perm (insertSorted x l) (x :: l)
  | [] => by simp [insertSorted]
  | y :: rest => by
      by_cases h : x ≤ y
      · simp [insertSorted, h]
      · simp only [insertSorted, if_neg h]
        exact ((insertSorted_perm x rest).cons y).trans (List.Perm.swap x y rest)

theorem sortInts_perm : ∀ l : List ℤ, List.Perm (sortInts l) l
  | [] => by simp [sortInts]
  | x :: rest => by
      simp only [sortInts]
      exact (insertSorted_perm x (sortInts rest)).trans ((sortInts_perm rest).cons x)

theorem insertSorted_sorted (x : ℤ) : ∀ l : List ℤ, l.Sorted (· ≤ ·) →
    (insertSorted x l).Sorted (· ≤ ·)
  | [], _ => by simp [insertSorted]
  | y :: rest, h => by
      rcases List.sorted_cons.mp h with ⟨hy, hrest⟩
      by_cases hxy : x ≤ y
      · simp only [insertSorted, if_pos hxy]
        refine List.sorted_cons.mpr ⟨fun b hb => ?_, h⟩
        rcases List.mem_cons.mp hb with rfl | hb
        · exact hxy
        · exact hxy.trans (hy b hb)
      · simp only [insertSorted, if_neg hxy]
        refine List.sorted_cons.mpr ⟨fun b hb => ?_, insertSorted_sorted x rest hrest⟩
        rcases List.mem_cons.mp ((insertSorted_perm x rest).mem_iff.mp hb) with rfl | hb
        · exact le_of_not_le hxy
        · exact hy b hb

theorem sortInts_sorted : ∀ l : List ℤ, (sortInts l).Sorted (· ≤ ·)
  | [] => by simp [sortInts]
  | x :: rest => insertSorted_sorted x (sortInts rest) (sortInts_sorted rest)

theorem sorted_head_zero (l : List ℤ) (hs : l.Sorted (· ≤ ·)) (h0 : 0 ∈ l)
    (hnn : ∀ k ∈ l, 0 ≤ k) : l.head? = some 0 := by
  cases l with
  | nil => cases h0
  | cons x rest =>
      have hx : 0 ≤ x := hnn x (by simp)
      rcases List.mem_cons.mp h0 with h | h
      · simp [← h]
      · have hle : x ≤ 0 := (List.sorted_cons.mp hs).1 0 h
        simp [le_antisymm hle hx]

/-- `strconv.Atoi` of a string whose first character is a digit is
nonnegative when it succeeds. -/
theorem goAtoi_nonneg (s : String) (hh : isDigitChar (s.data.headD '0') = true)
    (n : ℤ) (h : goAtoi s = some n) : 0 ≤ n := by
  cases hd : s.data with
  | nil =>
      unfold goAtoi at h
      rw [hd] at h
      simp at h
  | cons c cs =>
      rw [hd] at hh
      simp only [List.headD_cons] at hh
      have hcm : ¬(c = '-') := by
        rintro rfl
        simp [isDigitChar] at hh
      by_cases hp : c = '+'
      · subst hp
        simp [isDigitChar] at hh
      · unfold goAtoi at h
        rw [hd] at h
        simp only [List.headD_cons, hcm, hp, or_self, if_false, if_neg] at h
        by_cases hall : (c :: cs).all isDigitChar
        · simp [hall, hcm] at h
          subst h
          positivity
        · simp [hall] at h

/-! ## A parser-state invariant: NUMBER tokens start with a digit (C9) -/

theorem nextToken_tokNum (l : Lexer) : tokNum (nextToken l).1 := by
  intro h
  obtain ⟨hd, hlit⟩ := nextToken_number_literal l h
  have hpch : (fun c => isDigitChar c || c = '.') (skipWhitespace l).ch = true := by
    simp [hd]
  have hh := readWhileAux_head (fun c => isDigitChar c || c = '.')
    (skipWhitespace l).ch (skipWhitespace l).line (skipWhitespace l).rest hpch
  rw [hlit, hh.2]
  exact hd

theorem pNextToken_ok {p : Parser} (h : ParserOK p) : ParserOK (pNextToken p) :=
  ⟨h.2, nextToken_tokNum p.lx⟩

theorem newParser_ok (lx : Lexer) : ParserOK (newParser lx) :=
  pNextToken_ok (pNextToken_ok ⟨fun h => by simp at h, fun h => by simp at h⟩)

theorem expectPeek_ok {p : Parser} (t : String) (h : ParserOK p) :
    ParserOK (expectPeek t p).2 := by
  unfold expectPeek
  split
  · exact pNextToken_ok h
  · exact h

theorem exprBlock_ok (fuel : ℕ) :
    (∀ prec p, ParserOK p → ParserOK (parseExpression fuel prec p).2) ∧
    (∀ prec left p, ParserOK p → ParserOK (parseInfixLoop fuel prec left p).2) ∧
    (∀ t p, ParserOK p → ParserOK (callPrefixFn fuel t p).2) ∧
    (∀ t left p, ParserOK p → ParserOK (callInfixFn fuel t left p).2) := by
  induction fuel with
  | zero =>
      exact ⟨fun _ p h => h, fun _ _ p h => h, fun _ p h => h, fun _ _ p h => h⟩
  | succ n ih =>
      obtain ⟨ihE, ihL, ihP, ihI⟩ := ih
      refine ⟨?_, ?_, ?_, ?_⟩
      · intro prec p h
        simp only [parseExpression]
        split
        · exact ihL prec _ _ (ihP _ _ h)
        · exact h
      · intro prec left p h
        simp only [parseInfixLoop]
        split
        · split
          · exact ihL prec _ _ (ihI _ _ _ (pNextToken_ok h))
          · exact h
        · exact h
      · intro t p h
        simp only [callPrefixFn]
        repeat' split
        all_goals
          first
            | exact h
            | exact ihE _ _ (pNextToken_ok h)
            | (rename_i p3 heq
               have := expectPeek_ok ")" (ihE 1 (pNextToken p) (pNextToken_ok h))
               rw [heq] at this
               exact this)
      · intro t left p h
        simp only [callInfixFn]
        repeat' split
        all_goals
          first
            | exact h
            | exact ihE _ _ (pNextToken_ok h)
            | (rename_i p3 heq
               have := expectPeek_ok ")" (ihE 1 (pNextToken p) (pNextToken_ok h))
               rw [heq] at this
               exact this)

theorem ok_pair {α : Type} {x : α × Parser} {a : α} {q : Parser}
    (h : ParserOK x.2) (heq : x = (a, q)) : ParserOK q := by
  rw [heq] at h
  exact h

theorem parsePrintLoop_ok : ∀ (fuel efuel : ℕ) (p : Parser) (es : List Expr)
    (ss : List String), ParserOK p → ParserOK (parsePrintLoop fuel efuel p es ss).2.2.2
  | 0, _, p, _, _, h => h
  | fuel + 1, efuel, p, es, ss, h => by
      simp only [parsePrintLoop]
      repeat' split
      all_goals
        first
          | exact (exprBlock_ok efuel).1 _ _ h
          | exact pNextToken_ok ((exprBlock_ok efuel).1 _ _ h)
          | exact parsePrintLoop_ok fuel efuel _ _ _
              (pNextToken_ok (pNextToken_ok ((exprBlock_ok efuel).1 _ _ h)))

theorem parsePrintStatement_ok (efuel : ℕ) (p : Parser) (h : ParserOK p) :
    ParserOK (parsePrintStatement efuel p).2 := by
  simp only [parsePrintStatement]
  repeat' split
  all_goals
    first
      | exact pNextToken_ok h
      | exact parsePrintLoop_ok efuel efuel _ _ _ (pNextToken_ok h)

theorem parseLetStatement_ok (efuel : ℕ) (p : Parser) (h : ParserOK p) :
    ParserOK (parseLetStatement efuel p).2 := by
  simp only [parseLetStatement]
  split
  next p1 heq =>
    exact ok_pair (expectPeek_ok _ h) heq
  next p1 heq =>
    have h1 : ParserOK p1 := ok_pair (expectPeek_ok _ h) heq
    split
    next p2 heq2 =>
      exact ok_pair (expectPeek_ok _ h1) heq2
    next p2 heq2 =>
      exact (exprBlock_ok efuel).1 _ _
        (pNextToken_ok (ok_pair (expectPeek_ok _ h1) heq2))

theorem parseGotoStatement_ok (efuel : ℕ) (p : Parser) (h : ParserOK p) :
    ParserOK (parseGotoStatement efuel p).2 := by
  simp only [parseGotoStatement]
  exact (exprBlock_ok efuel).1 _ _ (pNextToken_ok h)

theorem parseGosubStatement_ok (efuel : ℕ) (p : Parser) (h : ParserOK p) :
    ParserOK (parseGosubStatement efuel p).2 := by
  simp only [parseGosubStatement]
  exact (exprBlock_ok efuel).1 _ _ (pNextToken_ok h)

theorem parseForStatement_ok (efuel : ℕ) (p : Parser) (h : ParserOK p) :
    ParserOK (parseForStatement efuel p).2 := by
  simp only [parseForStatement]
  split
  next p1 heq =>
    exact ok_pair (expectPeek_ok _ h) heq
  next p1 heq =>
    have h1 : ParserOK p1 := ok_pair (expectPeek_ok _ h) heq
    split
    next p2 heq2 =>
      exact ok_pair (expectPeek_ok _ h1) heq2
    next p2 heq2 =>
      have h2 : ParserOK (parseExpression efuel 1 (pNextToken p2)).2 :=
        (exprBlock_ok efuel).1 _ _
          (pNextToken_ok (ok_pair (expectPeek_ok _ h1) heq2))
      split
      next p4 heq4 =>
        exact ok_pair (expectPeek_ok _ h2) heq4
      next p4 heq4 =>
        have h4 : ParserOK (parseExpression efuel 1 (pNextToken p4)).2 :=
          (exprBlock_ok efuel).1 _ _
            (pNextToken_ok (ok_pair (expectPeek_ok _ h2) heq4))
        split
        · exact (exprBlock_ok efuel).1 _ _ (pNextToken_ok (pNextToken_ok h4))
        · exact h4

theorem parseNextStatement_ok (p : Parser) (h : ParserOK p) :
    ParserOK (parseNextStatement p).2 := by
  simp only [parseNextStatement]
  split
  · exact pNextToken_ok h
  · exact h

theorem parseInputLoop_ok : ∀ (fuel : ℕ) (p : Parser) (acc : List String),
    ParserOK p → ParserOK (parseInputLoop fuel p acc).2
  | 0, _, _, h => h
  | fuel + 1, p, acc, h => by
      simp only [parseInputLoop]
      repeat' split
      all_goals
        first
          | exact h
          | exact parseInputLoop_ok fuel _ _ (pNextToken_ok (pNextToken_ok h))

theorem parseInputStatement_ok (efuel : ℕ) (p : Parser) (h : ParserOK p) :
    ParserOK (parseInputStatement efuel p).2 := by
  simp only [parseInputStatement]
  have h1 : ParserOK (pNextToken p) := pNextToken_ok h
  split
  · split
    next p2 heq =>
      exact parseInputLoop_ok efuel _ _ (pNextToken_ok (ok_pair (expectPeek_ok _ h1) heq))
    next p2 heq =>
      have h2 : ParserOK p2 := ok_pair (expectPeek_ok _ h1) heq
      split
      next p3 heq3 =>
        exact parseInputLoop_ok efuel _ _ (pNextToken_ok (ok_pair (expectPeek_ok _ h2) heq3))
      next p3 heq3 =>
        exact ok_pair (expectPeek_ok _ h2) heq3
  · exact parseInputLoop_ok efuel _ _ h1

theorem parseRemLoop_ok : ∀ (fuel : ℕ) (p : Parser) (acc : String),
    ParserOK p → ParserOK (parseRemLoop fuel p acc).2
  | 0, _, _, h => h
  | fuel + 1, p, acc, h => by
      simp only [parseRemLoop]
      split
      · exact parseRemLoop_ok fuel _ _ (pNextToken_ok h)
      · exact h

theorem parseRemStatement_ok (efuel : ℕ) (p : Parser) (h : ParserOK p) :
    ParserOK (parseRemStatement efuel p).2 := by
  simp only [parseRemStatement]
  exact parseRemLoop_ok efuel _ _ (pNextToken_ok h)

theorem parseDimStatement_ok (efuel : ℕ) (p : Parser) (h : ParserOK p) :
    ParserOK (parseDimStatement efuel p).2 := by
  simp only [parseDimStatement]
  split
  next p1 heq =>
    exact ok_pair (expectPeek_ok _ h) heq
  next p1 heq =>
    have h1 : ParserOK p1 := ok_pair (expectPeek_ok _ h) heq
    split
    next p2 heq2 =>
      exact ok_pair (expectPeek_ok _ h1) heq2
    next p2 heq2 =>
      have h2 : ParserOK (parseExpression efuel 1 (pNextToken p2)).2 :=
        (exprBlock_ok efuel).1 _ _
          (pNextToken_ok (ok_pair (expectPeek_ok _ h1) heq2))
      split
      next p4 heq4 =>
        exact ok_pair (expectPeek_ok _ h2) heq4
      next p4 heq4 =>
        exact ok_pair (expectPeek_ok _ h2) heq4

theorem parseExpressionStatement_ok (efuel : ℕ) (p : Parser) (h : ParserOK p) :
    ParserOK (parseExpressionStatement efuel p).2 := by
  simp only [parseExpressionStatement]
  exact (exprBlock_ok efuel).1 _ _ h

set_option maxHeartbeats 1000000 in
theorem stmtBlock_ok (fuel : ℕ) :
    (∀ efuel p, ParserOK p → ParserOK (parseStatement fuel efuel p).2) ∧
    (∀ efuel p acc, ParserOK p → ParserOK (parseColonLoop fuel efuel p acc).2) ∧
    (∀ efuel p, ParserOK p → ParserOK (parseSingleStatement fuel efuel p).2) ∧
    (∀ efuel p, ParserOK p → ParserOK (parseIfStatement fuel efuel p).2) := by
  induction fuel with
  | zero =>
      exact ⟨fun _ p h => h, fun _ p _ h => h, fun _ p h => h, fun _ p h => h⟩
  | succ n ih =>
      obtain ⟨ihS, ihC, ihSS, ihIf⟩ := ih
      refine ⟨?_, ?_, ?_, ?_⟩
      · intro efuel p h
        simp only [parseStatement]
        have hc : ParserOK (parseColonLoop n efuel (parseSingleStatement n efuel p).2
            [(parseSingleStatement n efuel p).1]).2 :=
          ihC _ _ _ (ihSS _ _ h)
        split
        next s0 p2 heq =>
          rw [heq] at hc
          exact hc
        next stmts p2 hne heq =>
          rw [heq] at hc
          exact hc
      · intro efuel p acc h
        simp only [parseColonLoop]
        split
        · split
          · exact pNextToken_ok (pNextToken_ok h)
          · exact ihC _ _ _ (ihSS _ _ (pNextToken_ok (pNextToken_ok h)))
        · exact h
      · intro efuel p h
        simp only [parseSingleStatement]
        by_cases hx0 : p.curToken.ttype = "PRINT"
        · rw [if_pos hx0]
          exact parsePrintStatement_ok efuel p h
        · rw [if_neg hx0]
          by_cases hx1 : p.curToken.ttype = "LET"
          · rw [if_pos hx1]
            exact parseLetStatement_ok efuel p h
          · rw [if_neg hx1]
            by_cases hx2 : p.curToken.ttype = "IF"
            · rw [if_pos hx2]
              exact ihIf efuel p h
            · rw [if_neg hx2]
              by_cases hx3 : p.curToken.ttype = "GOTO"
              · rw [if_pos hx3]
                exact parseGotoStatement_ok efuel p h
              · rw [if_neg hx3]
                by_cases hx4 : p.curToken.ttype = "GOSUB"
                · rw [if_pos hx4]
                  exact parseGosubStatement_ok efuel p h
                · rw [if_neg hx4]
                  by_cases hx5 : p.curToken.ttype = "RETURN"
                  · rw [if_pos hx5]
                    exact h
                  · rw [if_neg hx5]
                    by_cases hx6 : p.curToken.ttype = "FOR"
                    · rw [if_pos hx6]
                      exact parseForStatement_ok efuel p h
                    · rw [if_neg hx6]
                      by_cases hx7 : p.curToken.ttype = "NEXT"
                      · rw [if_pos hx7]
                        exact parseNextStatement_ok p h
                      · rw [if_neg hx7]
                        by_cases hx8 : p.curToken.ttype = "INPUT"
                        · rw [if_pos hx8]
                          exact parseInputStatement_ok efuel p h
                        · rw [if_neg hx8]
                          by_cases hx9 : p.curToken.ttype = "END"
                          · rw [if_pos hx9]
                            exact h
                          · rw [if_neg hx9]
                            by_cases hx10 : p.curToken.ttype = "REM"
                            · rw [if_pos hx10]
                              exact parseRemStatement_ok efuel p h
                            · rw [if_neg hx10]
                              by_cases hx11 : p.curToken.ttype = "DIM"
                              · rw [if_pos hx11]
                                exact parseDimStatement_ok efuel p h
                              · rw [if_neg hx11]
                                exact parseExpressionStatement_ok efuel p h
      · intro efuel p h
        simp only [parseIfStatement]
        split
        next p2 heq =>
          exact ok_pair (expectPeek_ok _ ((exprBlock_ok efuel).1 _ _ (pNextToken_ok h))) heq
        next p2 heq =>
          have h2 : ParserOK p2 :=
            ok_pair (expectPeek_ok _ ((exprBlock_ok efuel).1 _ _ (pNextToken_ok h))) heq
          split
          · exact ihS _ _ (pNextToken_ok (pNextToken_ok (ihS _ _ (pNextToken_ok h2))))
          · exact ihS _ _ (pNextToken_ok h2)

theorem parseLineStatement_ok (sfuel efuel : ℕ) (p : Parser) (h : ParserOK p) :
    ParserOK (parseLineStatement sfuel efuel p).2 := by
  simp only [parseLineStatement]
  split
  · exact h
  · exact (stmtBlock_ok sfuel).1 _ _ (pNextToken_ok h)

theorem parseStatementOrLine_ok (sfuel efuel : ℕ) (p : Parser) (h : ParserOK p) :
    ParserOK (parseStatementOrLine sfuel efuel p).2 := by
  simp only [parseStatementOrLine]
  split
  · exact parseLineStatement_ok sfuel efuel p h
  · exact (stmtBlock_ok sfuel).1 _ _ h

theorem parseStatementOrLine_line_nonneg (sfuel efuel : ℕ) (p : Parser) (h : ParserOK p)
    (n : ℤ) (s : Stmt) (p1 : Parser)
    (heq : parseStatementOrLine sfuel efuel p = (ParsedLine.line n s, p1)) : 0 ≤ n := by
  by_cases hnum : p.curToken.ttype = "NUMBER"
  · unfold parseStatementOrLine at heq
    rw [if_pos hnum] at heq
    unfold parseLineStatement at heq
    cases hatoi : goAtoi p.curToken.literal with
    | none =>
        rw [hatoi] at heq
        simp at heq
    | some m =>
        rw [hatoi] at heq
        simp only [Prod.mk.injEq, ParsedLine.line.injEq] at heq
        obtain ⟨⟨hmn, -⟩, -⟩ := heq
        rw [← hmn]
        exact goAtoi_nonneg _ (h.1 hnum) m hatoi
  · unfold parseStatementOrLine at heq
    rw [if_neg hnum] at heq
    simp at heq

theorem parseProgramLoop_keys : ∀ (fuel sfuel : ℕ) (p : Parser) (acc : List (ℤ × Stmt)),
    ParserOK p → (∀ kv ∈ acc, 0 ≤ kv.1) →
    ∀ (res : List (ℤ × Stmt)) (p1 : Parser),
      parseProgramLoop fuel sfuel p acc = some (res, p1) → ∀ kv ∈ res, 0 ≤ kv.1
  | 0, sfuel, p, acc, h, hacc, res, p1, heq => by
      simp only [parseProgramLoop, Option.some_inj, Prod.mk.injEq] at heq
      rw [← heq.1]
      exact hacc
  | fuel + 1, sfuel, p, acc, h, hacc, res, p1, heq => by
      simp only [parseProgramLoop] at heq
      split at heq
      · simp only [Option.some_inj, Prod.mk.injEq] at heq
        rw [← heq.1]
        exact hacc
      · split at heq
        · exact parseProgramLoop_keys fuel sfuel _ _ (pNextToken_ok h) hacc res p1 heq
        · rcases hsl : parseStatementOrLine sfuel sfuel p with ⟨pl, pp⟩
          rw [hsl] at heq
          cases pl with
          | line m s =>
              refine parseProgramLoop_keys fuel sfuel _ _
                (pNextToken_ok (ok_pair (parseStatementOrLine_ok sfuel sfuel p h) hsl)) ?_ res p1 heq
              intro kv hkv
              rcases mem_setA acc m s kv hkv with hkv1 | hkv1
              · rw [hkv1]
                exact parseStatementOrLine_line_nonneg sfuel sfuel p h m s pp hsl
              · exact hacc kv hkv1
          | lineNil => simp at heq
          | plain s =>
              refine parseProgramLoop_keys fuel sfuel _ _
                (pNextToken_ok (ok_pair (parseStatementOrLine_ok sfuel sfuel p h) hsl)) ?_ res p1 heq
              intro kv hkv
              rcases mem_setA acc 0 s kv hkv with hkv1 | hkv1
              · rw [hkv1]
              · exact hacc kv hkv1

/-- C9: the immediate statement runs first and keys are sorted.  (i) Every
key of a parsed program is nonnegative, so any key other than 0 is
positive (line keys come from `strconv.Atoi` on a NUMBER literal, which
starts with a digit, and immediate statements are stored under key 0);
(ii) the evaluator's line list `programLines` is the ascending sort of the
program's keys (sorted, and a permutation of the keys), and the run loop
walks it by increasing index from 0; (iii) hence when key 0 is present it
is the first entry of the line list, so the immediate statement executes
before every numbered line. -/
theorem c9_immediate_statement_first :
    (∀ (fuel : ℕ) (src : String) (prog : List (ℤ × Stmt)) (errs : List String),
        parseProgramFromString fuel src = some (prog, errs) →
        ∀ k ∈ prog.map Prod.fst, 0 ≤ k ∧ (k ≠ 0 → 0 < k)) ∧
    (∀ prog : List (ℤ × Stmt),
        (programLines prog).Sorted (· ≤ ·) ∧
        List.Perm (programLines prog) (prog.map Prod.fst)) ∧
    (∀ prog : List (ℤ × Stmt), 0 ∈ prog.map Prod.fst →
        (∀ k ∈ prog.map Prod.fst, 0 ≤ k) →
        (programLines prog).head? = some 0 ∧
        intGet (programLines prog) 0 = some 0) := by
  refine ⟨?_, ?_, ?_⟩
  · intro fuel src prog errs hp k hk
    obtain ⟨⟨prog1, p1⟩, hloop, hpair⟩ := Option.map_eq_some'.mp hp
    obtain ⟨kv, hkv, hk1⟩ := List.mem_map.mp hk
    have hprog1 : prog1 = prog := congrArg Prod.fst hpair
    have hnn : 0 ≤ kv.1 := by
      refine parseProgramLoop_keys fuel fuel (newParser (newLexer src)) []
        (newParser_ok _) ?_ prog1 p1 hloop kv ?_
      · intro x hx
        cases hx
      · rw [hprog1]
        exact hkv
    rw [← hk1]
    exact ⟨hnn, fun hne => lt_of_le_of_ne hnn (Ne.symm hne)⟩
  · intro prog
    exact ⟨sortInts_sorted _, sortInts_perm _⟩
  · intro prog h0 hnn
    have hhead : (programLines prog).head? = some 0 :=
      sorted_head_zero _ (sortInts_sorted _)
        ((sortInts_perm (prog.map Prod.fst)).mem_iff.mpr h0)
        (fun k hk => hnn k ((sortInts_perm (prog.map Prod.fst)).mem_iff.mp hk))
    refine ⟨hhead, ?_⟩
    simp only [intGet, le_refl, if_true, Int.toNat_zero]
    rw [List.get?_zero]
    exact hhead

/-- Witness for C9: the theorem applied to the parse of `10 END` (its only
key, 10, is nonnegative and positive) and to a concrete two-line program
with an immediate statement under key 0 (line 0 is fetched first). -/
theorem c9_immediate_statement_first_witness :
    ((0 : ℤ) ≤ 10 ∧ ((10 : ℤ) ≠ 0 → 0 < (10 : ℤ))) ∧
    intGet (programLines [((0 : ℤ), Stmt.endS), (7, Stmt.returnS)]) 0 = some 0 :=
  ⟨c9_immediate_statement_first.1 20 "10 END" [(10, Stmt.endS)] [] (by rfl) 10 (by simp),
   (c9_immediate_statement_first.2.2 [((0 : ℤ), Stmt.endS), (7, Stmt.returnS)]
      (by simp) (by decide)).2⟩

end BasicGo
